import Mathlib

/-! The saferc target store, package rc (src/rc/config.go).

A shallow embedding of package rc: the Config document, the lookup Find, the mutators
SetCurrent, SetTarget and SetToken, the projections URL and Verified, the resolver Vault,
the legacy conversion convert, and Read, Write and Apply over explicit files and an
explicit environment.

Modelling decisions.

* Go strings are Lean strings. The string operations used are strings.TrimSuffix with the
  one-byte suffix "/" and strings.TrimSpace; the byte of "/" only ever encodes the
  character '/', so trimming on characters and trimming on bytes agree.
* The field Vaults, a map[string]*Vault, is an optional list of (alias, pointer) entries:
  none is the nil map, and the order of the list is the order in which a range loop
  visits the entries (Go leaves that order unspecified, so every order is a possible
  run).  A Go map has at most one entry per key; the predicate Config.WF says so.
* A pointer stored in the map is nil (none) or points to a record (some).  The type
  map[string]*Vault admits a nil entry, and a decoder leaves one for a null value; the
  predicate Config.NoNil says that a map holds none.  Distinct entries point to distinct
  allocations, as convert and SetTarget allocate them, so a non-nil pointer into the map
  is identified by the alias it is stored under.
* Methods with a pointer receiver that assign to the receiver take the config and
  return the new config.  A method that dereferences a pointer returns Except Panic,
  the error side being the run-time panic of a nil dereference.
* An error value is represented by the constructor naming its format string, with the
  argument of the format.
* The counter n of Find is a Go int; a map cannot hold 2^63 entries, so it is a Nat.
* The YAML codec is a parameter (Codec) over a type of file contents.  The files saferc()
  and svtoken() are two slots of a state (Files); a write or removal fails on the files
  the state lists as denied and then changes nothing.  The environment is a key-value
  list and the fallback token file a slot next to it (Process); os.Setenv fails, and
  changes nothing, on an empty key, on a key holding '=' or a NUL byte and on a value
  holding a NUL byte.
* A call that ends the process (os.Exit) or panics returns on the error side of Except.
-/

namespace rc

/-- The record type Vault of config.go, lines 19-23. -/
structure Vault where
  URL : String
  Token : String
  SkipVerify : Bool
deriving DecidableEq, Repr

/-- The document type Config of config.go, lines 13-17.  An entry of Vaults holds the
pointer stored under the alias: none is the nil pointer. -/
structure Config where
  Version : Int
  Current : String
  Vaults : Option (List (String × Option Vault))
deriving DecidableEq, Repr

/-- A value of type *Vault handed out by Find: nil, or the address of the record stored
under an alias, carried together with the contents read through it. -/
abbrev VaultPtr := Option (String × Vault)

/-- The error values built by fmt.Errorf in config.go. -/
inductive Error where
  /-- "More than one target for Vault at '%s' (maybe try an alias?)" (Find). -/
  | moreThanOne (alias_ : String)
  /-- "Unknown target '%s'" (SetCurrent, SetToken). -/
  | unknownTarget (alias_ : String)
  /-- "No target selected" (SetToken). -/
  | noTargetSelected
  /-- "Current target '%s' not found in ~/.saferc" (Vault). -/
  | notFound (which : String)
  /-- An error handed back by a library call (yaml.Marshal, yaml.Unmarshal,
  ioutil.WriteFile, os.Setenv), named by the call. -/
  | external (call : String)
deriving DecidableEq, Repr

/-- Run-time panics of the Go code. -/
inductive Panic where
  /-- A field access through a nil *Vault. -/
  | nilDereference
  /-- The assertion token.(string) on a dynamic value that is not a string (convert). -/
  | typeAssertion
deriving DecidableEq, Repr

deriving instance DecidableEq for Except

/-- Go's strings.TrimSuffix: s without the trailing suffix, or s itself when it does not
end in suffix. -/
def TrimSuffix (s suffix : String) : String :=
  if suffix.data.isSuffixOf s.data then
    ⟨s.data.take (s.data.length - suffix.data.length)⟩
  else s

/-- The map index expression m[k] with the comma-ok form, on the entries of a map: none
when k is no key, and otherwise the pointer stored under k, which may be nil. -/
def mapIndex : List (String × Option Vault) → String → Option (Option Vault)
  | [], _ => none
  | (k', v) :: l, k => if k' = k then some v else mapIndex l k

/-- The map assignment m[k] = v: the entry of key k is replaced, or a new entry is added. -/
def mapAssign (k : String) (v : Option Vault) :
    List (String × Option Vault) → List (String × Option Vault)
  | [] => [(k, v)]
  | (k', v') :: l => if k' = k then (k, v) :: l else (k', v') :: mapAssign k v l

/-- An assignment through the non-nil pointer stored under alias k: the record there
becomes f of what it was. -/
def mapStore (k : String) (f : Vault → Vault) :
    List (String × Option Vault) → List (String × Option Vault)
  | [] => []
  | (k', v) :: l => if k' = k then (k', v.map f) :: l else (k', v) :: mapStore k f l

/-- The entries a range loop over c.Vaults visits; a nil map has none. -/
def Config.entries (c : Config) : List (String × Option Vault) :=
  c.Vaults.getD []

/-- The entry, when its pointer is not nil and the URL of its record equals want once a
single trailing "/" is stripped. -/
def urlMatch (want : String) (e : String × Option Vault) : Option (String × Vault) :=
  match e.2 with
  | none => none
  | some v => if TrimSuffix v.URL "/" = want then some (e.1, v) else none

/-- The records of c whose URL equals s once a single trailing "/" is stripped from both,
in the order of the entries. -/
def Config.urlMatches (c : Config) (s : String) : List (String × Vault) :=
  c.entries.filterMap (urlMatch (TrimSuffix s "/"))

/-- A Go map holds at most one entry per key. -/
def Config.WF (c : Config) : Prop :=
  (c.entries.map Prod.fst).Nodup

instance (c : Config) : Decidable c.WF := by
  unfold Config.WF; infer_instance

/-- Whether some entry of the list holds a nil pointer. -/
def hasNil (l : List (String × Option Vault)) : Bool :=
  l.any fun e => e.2.isNone

/-- The map holds no nil record. -/
def Config.NoNil (c : Config) : Prop :=
  hasNil c.entries = false

instance (c : Config) : Decidable c.NoNil := by
  unfold Config.NoNil; infer_instance

/-- One iteration of the range loop of Find (lines 243-246) on the pair (v, n): the field
access maybe.URL panics on a nil pointer. -/
def findStep (want : String) (acc : VaultPtr × Nat) (maybe : String × Option Vault) :
    Except Panic (VaultPtr × Nat) :=
  match maybe.2 with
  | none => .error Panic.nilDereference
  | some v =>
    if TrimSuffix v.URL "/" = want then .ok (some (maybe.1, v), acc.2 + 1) else .ok acc

/-- The range loop of Find (lines 242-247) over the entries still to visit. -/
def findLoop (want : String) :
    List (String × Option Vault) → VaultPtr × Nat → Except Panic (VaultPtr × Nat)
  | [], acc => .ok acc
  | maybe :: rest, acc =>
    match findStep want acc maybe with
    | .error p => .error p
    | .ok acc' => findLoop want rest acc'

/-- Config.Find, lines 233-256.  A key hit returns the stored pointer as it is, nil
included. -/
def Config.Find (c : Config) (alias_ : String) : Except Panic (VaultPtr × Bool × Option Error) :=
  match mapIndex c.entries alias_ with
  | some v => .ok (v.map fun r => (alias_, r), true, none)
  | none =>
    match findLoop (TrimSuffix alias_ "/") c.entries (none, 0) with
    | .error p => .error p
    | .ok r =>
      if r.2 = 1 then .ok (r.1, true, none)
      else if r.2 > 1 then .ok (none, true, some (Error.moreThanOne alias_))
      else .ok (none, false, none)

/-- Config.SetCurrent, lines 178-191. -/
def Config.SetCurrent (c : Config) (alias_ : String) (reskip : Bool) :
    Except Panic (Config × Option Error) :=
  match c.Find alias_ with
  | .error p => .error p
  | .ok (_, _, some err) => .ok (c, some err)
  | .ok (_, false, none) => .ok (c, some (Error.unknownTarget alias_))
  | .ok (v, true, none) =>
    let c1 := { c with Current := alias_ }
    if reskip then
      match v with
      | none => .error Panic.nilDereference
      | some (k, _) =>
        .ok ({ c1 with Vaults := c1.Vaults.map (mapStore k fun r => { r with SkipVerify := true }) },
          none)
    else .ok (c1, none)

/-- Config.SetTarget, lines 193-205. -/
def Config.SetTarget (c : Config) (alias_ url : String) (skipverify : Bool) :
    Config × Option Error :=
  let vaults := match c.Vaults with
    | none => []
    | some m => m
  ({ c with
      Current := alias_
      Vaults := some
        (mapAssign alias_ (some { URL := url, Token := "", SkipVerify := skipverify }) vaults) },
    none)

/-- Config.SetToken, lines 207-217. -/
def Config.SetToken (c : Config) (token : String) : Except Panic (Config × Option Error) :=
  if c.Current = "" then .ok (c, some Error.noTargetSelected)
  else
    match c.Find c.Current with
    | .error p => .error p
    | .ok (_, false, _) => .ok (c, some (Error.unknownTarget c.Current))
    | .ok (none, true, _) => .error Panic.nilDereference
    | .ok (some (k, _), true, _) =>
      .ok ({ c with Vaults := c.Vaults.map (mapStore k fun r => { r with Token := token }) }, none)

/-- Config.URL, lines 219-224. -/
def Config.URL (c : Config) : Except Panic String :=
  match c.Find c.Current with
  | .error p => .error p
  | .ok (none, true, _) => .error Panic.nilDereference
  | .ok (some (_, v), true, _) => .ok v.URL
  | .ok (_, false, _) => .ok ""

/-- Config.Verified, lines 226-231. -/
def Config.Verified (c : Config) : Except Panic Bool :=
  match c.Find c.Current with
  | .error p => .error p
  | .ok (none, true, _) => .error Panic.nilDereference
  | .ok (some (_, v), true, _) => .ok (!v.SkipVerify)
  | .ok (_, false, _) => .ok false

/-- Config.Vault, lines 258-275. -/
def Config.Vault (c : Config) (which : String) : Except Panic (VaultPtr × Option Error) :=
  let which := if which = "" then c.Current else which
  if which = "" then .ok (none, none)
  else
    match c.Find which with
    | .error p => .error p
    | .ok (_, _, some err) => .ok (none, some err)
    | .ok (_, false, none) => .ok (none, some (Error.notFound which))
    | .ok (v, true, none) => .ok (v, none)

/-! ## The legacy document and its conversion -/

/-- A value of type interface, as the decoder leaves it in the map Targets: nil, a string,
or a value of another dynamic type (integers and booleans stand for all of them: the
assertion to string fails on each). -/
inductive Iface where
  | null
  | string (s : String)
  | int (n : Int)
  | bool (b : Bool)
deriving DecidableEq, Repr

/-- The legacy document type oldConfig of config.go, lines 25-30.  The three maps are only
read, so a nil map and an empty map are the same list. -/
structure oldConfig where
  Current : String
  Targets : List (String × Iface)
  Aliases : List (String × String)
  SkipVerify : List (String × Bool)
deriving DecidableEq, Repr

/-- The map index expression m[k] with the comma-ok form, for a map of any value type. -/
def mapGet {β : Type} : List (String × β) → String → Option β
  | [], _ => none
  | (k', v) :: l, k => if k' = k then some v else mapGet l k

/-- The map assignment m[k] = v, for a map of any value type. -/
def mapPut {β : Type} (k : String) (v : β) : List (String × β) → List (String × β)
  | [] => [(k, v)]
  | (k', v') :: l => if k' = k then (k, v) :: l else (k', v') :: mapPut k v l

/-- The record built by one iteration of the loop of convert (lines 59-67) for the URL url;
the type assertion panics on a value that is present, not nil and not a string. -/
def convertEntry (legacy : oldConfig) (url : String) : Except Panic Vault :=
  let v : Vault := { URL := url, Token := "", SkipVerify := false }
  let v : Vault :=
    match mapGet legacy.SkipVerify url with
    | some skip => { v with SkipVerify := skip }
    | none => v
  match mapGet legacy.Targets url with
  | none => .ok v
  | some Iface.null => .ok v
  | some (Iface.string token) => .ok { v with Token := token }
  | some _ => .error Panic.typeAssertion

/-- The range loop of convert (lines 58-69) over the entries of legacy.Aliases still to
visit, on the map built so far; each record is stored through a fresh non-nil pointer. -/
def convertLoop (legacy : oldConfig) :
    List (String × String) → List (String × Option Vault) →
      Except Panic (List (String × Option Vault))
  | [], m => .ok m
  | (alias_, url) :: rest, m =>
    match convertEntry legacy url with
    | .error p => .error p
    | .ok v => convertLoop legacy rest (mapAssign alias_ (some v) m)

/-- The method oldConfig.convert, lines 51-72. -/
def oldConfig.convert (legacy : oldConfig) : Except Panic Config :=
  match convertLoop legacy legacy.Aliases [] with
  | .error p => .error p
  | .ok m => .ok { Version := 1, Current := legacy.Current, Vaults := some m }

/-- A dynamic value that is nil or a string. -/
def Iface.isStringOrNull : Iface → Bool
  | Iface.null => true
  | Iface.string _ => true
  | _ => false

/-- A legacy document with string-or-absent tokens: every value of Targets is nil or a
string. -/
def oldConfig.StringTokens (legacy : oldConfig) : Prop :=
  ∀ e ∈ legacy.Targets, e.2.isStringOrNull = true

instance (legacy : oldConfig) : Decidable legacy.StringTokens := by
  unfold oldConfig.StringTokens; infer_instance

/-- The record the specification of the converter prescribes for an alias of URL url:
SkipVerify from legacy.SkipVerify[url] if present, else false; Token from
legacy.Targets[url] if present and non-null, else empty. -/
def legacyRecord (legacy : oldConfig) (url : String) : Vault :=
  { URL := url
    Token :=
      match mapGet legacy.Targets url with
      | some (Iface.string token) => token
      | _ => ""
    SkipVerify := (mapGet legacy.SkipVerify url).getD false }

/-! ## Files, the codec, Read and Write -/

/-- The two files of the store: saferc() and svtoken(). -/
inductive File where
  | saferc
  | svtoken
deriving DecidableEq, Repr

/-- The files as explicit state, over a type Bytes of file contents: each file is absent
(or unreadable) or holds contents; ioutil.WriteFile and os.Remove fail on the files listed
in denied and leave them as they were. -/
structure Files (Bytes : Type) where
  saferc : Option Bytes
  svtoken : Option Bytes
  denied : List File
deriving DecidableEq, Repr

/-- The session projection: the anonymous struct sv of Write, lines 140-144. -/
structure Session where
  Vault : String
  Token : String
  SkipVerify : Bool
deriving DecidableEq, Repr

/-- The serialization codec, an external collaborator taken as a parameter: yaml.Marshal on
a Config and on the session struct, yaml.Unmarshal into a Config and into an oldConfig. -/
structure Codec (Bytes : Type) where
  marshalConfig : Config → Except Error Bytes
  marshalSession : Session → Except Error Bytes
  unmarshalConfig : Bytes → Except Error Config
  unmarshalLegacy : Bytes → Except Error oldConfig

/-- The call ioutil.WriteFile(path, b, 0600). -/
def Files.WriteFile {Bytes : Type} (fs : Files Bytes) (path : File) (b : Bytes) :
    Except Error (Files Bytes) :=
  if path ∈ fs.denied then .error (Error.external "ioutil.WriteFile")
  else
    match path with
    | File.saferc => .ok { fs with saferc := some b }
    | File.svtoken => .ok { fs with svtoken := some b }

/-- The call os.Remove(path), whose error Write ignores. -/
def Files.Remove {Bytes : Type} (fs : Files Bytes) (path : File) : Files Bytes :=
  if path ∈ fs.denied then fs
  else
    match path with
    | File.saferc => { fs with saferc := none }
    | File.svtoken => { fs with svtoken := none }

/-- The ways a call ends without returning: a panic, or os.Exit with a status. -/
inductive Halt where
  | panic (p : Panic)
  | exit (status : Nat)
deriving DecidableEq, Repr

/-- The function Read, lines 87-108. -/
def Read {Bytes : Type} (codec : Codec Bytes) (fs : Files Bytes) : Except Halt Config :=
  match fs.saferc with
  | none => .ok { Version := 1, Current := "", Vaults := none }
  | some b =>
    match codec.unmarshalConfig b with
    | .error _ => .ok { Version := 1, Current := "", Vaults := none }
    | .ok c =>
      if c.Version = 0 then
        match codec.unmarshalLegacy b with
        | .error _ => .error (Halt.exit 1)
        | .ok legacy =>
          match legacy.convert with
          | .error p => .error (Halt.panic p)
          | .ok c' => .ok c'
      else .ok c

/-- The method Config.Write, lines 120-151: the files it leaves, and the error it returns
or the panic it ends in (the files written before a panic stay written). -/
def Config.Write {Bytes : Type} (codec : Codec Bytes) (c : Config) (fs : Files Bytes) :
    Files Bytes × Except Panic (Option Error) :=
  match codec.marshalConfig c with
  | .error err => (fs, .ok (some err))
  | .ok b =>
    match fs.WriteFile File.saferc b with
    | .error err => (fs, .ok (some err))
    | .ok fs1 =>
      match c.Vault "" with
      | .error p => (fs1, .error p)
      | .ok (_, some err) => (fs1, .ok (some err))
      | .ok (none, none) => (fs1.Remove File.svtoken, .ok none)
      | .ok (some (_, v), none) =>
        match codec.marshalSession { Vault := v.URL, Token := v.Token, SkipVerify := v.SkipVerify } with
        | .error err => (fs1, .ok (some err))
        | .ok b' =>
          match fs1.WriteFile File.svtoken b' with
          | .error err => (fs1, .ok (some err))
          | .ok fs2 => (fs2, .ok none)

/-- Two documents are equivalent: the same Current, the same set of aliases, and at each
alias records with equal URL, Token and SkipVerify. -/
def Config.Equiv (c' c : Config) : Prop :=
  c'.Current = c.Current ∧ ∀ a, mapIndex c'.entries a = mapIndex c.entries a

/-- Unmarshal inverts marshal on documents: marshalling c succeeds and unmarshalling the
result gives a document of the same Version that is equivalent to c. -/
def Codec.Inverts {Bytes : Type} (codec : Codec Bytes) : Prop :=
  ∀ c : Config, ∃ b c', codec.marshalConfig c = .ok b ∧ codec.unmarshalConfig b = .ok c' ∧
    c'.Version = c.Version ∧ c'.Equiv c

/-! ## The process environment and Apply -/

/-- The process state Apply works on: the environment, as a key-value map, and the
fallback token file at HOME/.vault-token, absent (or unreadable) or holding its text. -/
structure Process where
  env : List (String × String)
  vaultToken : Option String
deriving DecidableEq, Repr

/-- Whether the string holds a NUL byte. -/
def hasNUL (s : String) : Bool :=
  s.data.any fun ch => ch.toNat = 0

/-- The call os.Getenv(key): the value of the variable, or the empty string when unset. -/
def Process.Getenv (p : Process) (key : String) : String :=
  (mapGet p.env key).getD ""

/-- The call os.Setenv(key, value) and the error it returns: it fails with EINVAL, leaving
the environment as it was, when the key is empty or holds '=' (code 61) or a NUL byte, and
when the value holds a NUL byte. -/
def Process.Setenv (p : Process) (key value : String) : Process × Option Error :=
  if key = "" ∨ (key.data.any fun ch => ch.toNat = 61 ∨ ch.toNat = 0) = true ∨
      hasNUL value = true then
    (p, some (Error.external "os.Setenv"))
  else ({ p with env := mapPut key value p.env }, none)

/-- Go's unicode.IsSpace: the Latin-1 spaces and the code points of the Unicode property
White_Space. -/
def isSpace (ch : Char) : Bool :=
  let n := ch.toNat
  (9 ≤ n ∧ n ≤ 13) ∨ n = 32 ∨ n = 0x85 ∨ n = 0xA0 ∨ n = 0x1680 ∨ (0x2000 ≤ n ∧ n ≤ 0x200A) ∨
    n = 0x2028 ∨ n = 0x2029 ∨ n = 0x202F ∨ n = 0x205F ∨ n = 0x3000

/-- Go's strings.TrimSpace: s without its leading and trailing white space. -/
def TrimSpace (s : String) : String :=
  ⟨((s.data.dropWhile isSpace).reverse.dropWhile isSpace).reverse⟩

/-- The method Config.Apply, lines 153-176.  It never assigns to its receiver; the config
is returned next to the process state so that this can be stated.  The error of each
os.Setenv is dropped, as in the source. -/
def Config.Apply (c : Config) (use : String) (p : Process) :
    Except Halt (Config × Process × Option Error) :=
  match c.Vault use with
  | .error q => .error (Halt.panic q)
  | .ok (_, some _) => .error (Halt.exit 1)
  | .ok (some (_, v), none) =>
    let p1 := (p.Setenv "VAULT_ADDR" v.URL).1
    let p2 := (p1.Setenv "VAULT_TOKEN" v.Token).1
    let p3 := if v.SkipVerify then (p2.Setenv "VAULT_SKIP_VERIFY" "1").1 else p2
    .ok (c, p3, none)
  | .ok (none, none) =>
    if p.Getenv "VAULT_TOKEN" = "" then
      match p.vaultToken with
      | some b => .ok (c, (p.Setenv "VAULT_TOKEN" (TrimSpace b)).1, none)
      | none => .ok (c, p, none)
    else .ok (c, p, none)

/-! ## Reachable states -/

/-- The states reachable from the default document of Read through the three mutators; a
call that panics leaves no state behind. -/
inductive Reachable : Config → Prop where
  | start : Reachable { Version := 1, Current := "", Vaults := none }
  | setCurrent (c c' : Config) (alias_ : String) (reskip : Bool) (err : Option Error) :
      Reachable c → c.SetCurrent alias_ reskip = .ok (c', err) → Reachable c'
  | setTarget (c : Config) (alias_ url : String) (skipverify : Bool) :
      Reachable c → Reachable (c.SetTarget alias_ url skipverify).1
  | setToken (c c' : Config) (token : String) (err : Option Error) :
      Reachable c → c.SetToken token = .ok (c', err) → Reachable c'

/-- The predicate of the reachable-state invariant: Current is empty, or Find(Current)
returns a record with found = true and a nil error. -/
def Config.Resolved (c : Config) : Prop :=
  c.Current = "" ∨ ∃ p, c.Find c.Current = .ok (some p, true, none)

/-- The invariant of the reachable states: the map holds no nil record, and either there
is no record at all and no target selected, or Find(Current) returns a record with
found = true and a nil error. -/
def Config.Settled (c : Config) : Prop :=
  c.NoNil ∧ ((c.Current = "" ∧ c.entries = []) ∨ ∃ p, c.Find c.Current = .ok (some p, true, none))

/-! ## Concrete inputs -/

/-- A store with the alias "https://v.example" and two more records at that URL. -/
def storeShadowed : Config :=
  { Version := 1
    Current := "prod"
    Vaults := some
      [ ("prod", some { URL := "https://v.example/", Token := "p", SkipVerify := false }),
        ("https://v.example",
          some { URL := "https://other.example", Token := "o", SkipVerify := true }),
        ("backup", some { URL := "https://v.example", Token := "b", SkipVerify := false }) ] }

/-- The store of three records, with the entries in the opposite order. -/
def storeShadowedRev : Config :=
  { Version := 1
    Current := "prod"
    Vaults := some
      [ ("backup", some { URL := "https://v.example", Token := "b", SkipVerify := false }),
        ("https://v.example",
          some { URL := "https://other.example", Token := "o", SkipVerify := true }),
        ("prod", some { URL := "https://v.example/", Token := "p", SkipVerify := false }) ] }

/-- A store with two aliases at URLs that differ by the trailing slash only. -/
def storeTwins : Config :=
  { Version := 1
    Current := "https://v.example"
    Vaults := some
      [ ("a", some { URL := "https://v.example/", Token := "ta", SkipVerify := false }),
        ("b", some { URL := "https://v.example", Token := "tb", SkipVerify := true }) ] }

/-- A store with the single alias "prod". -/
def storeProd : Config :=
  { Version := 1
    Current := ""
    Vaults := some
      [("prod", some { URL := "https://v.example/", Token := "t", SkipVerify := false })] }

/-- The store of the two twins after SetCurrent("a", true). -/
def storeTwinsA : Config :=
  { Version := 1
    Current := "a"
    Vaults := some
      [ ("a", some { URL := "https://v.example/", Token := "ta", SkipVerify := true }),
        ("b", some { URL := "https://v.example", Token := "tb", SkipVerify := true }) ] }

/-- A store with no target selected and one record at the URL "/". -/
def storeRoot : Config :=
  { Version := 1
    Current := ""
    Vaults := some [("a", some { URL := "/", Token := "t", SkipVerify := false })] }

/-- The store of the two twins with one more alias, "n", whose pointer is nil: what a
decoder leaves for a document whose vaults map has the entry n with a null value. -/
def storeNullTwins : Config :=
  { Version := 1
    Current := ""
    Vaults := some
      [ ("a", some { URL := "https://v.example/", Token := "ta", SkipVerify := false }),
        ("b", some { URL := "https://v.example", Token := "tb", SkipVerify := true }),
        ("n", none) ] }

/-- The store of the single alias "prod" with one more alias, "n", whose pointer is nil. -/
def storeNullProd : Config :=
  { Version := 1
    Current := ""
    Vaults := some
      [ ("prod", some { URL := "https://v.example/", Token := "t", SkipVerify := false }),
        ("n", none) ] }

/-- A store whose only alias, "n", holds a nil pointer, with no target selected. -/
def storeNullOnly : Config :=
  { Version := 1
    Current := ""
    Vaults := some [("n", none)] }

/-- A store whose Current names no record. -/
def storeGone : Config :=
  { Version := 1
    Current := "gone"
    Vaults := some
      [("prod", some { URL := "https://v.example/", Token := "t", SkipVerify := false })] }

/-- The store of the single alias "prod", selected, with Version 0. -/
def storeVersionZero : Config :=
  { Version := 0
    Current := "prod"
    Vaults := some
      [("prod", some { URL := "https://v.example/", Token := "t", SkipVerify := false })] }

/-- The default document after SetTarget("prod", "https://v.example/", false). -/
def storeFirst : Config :=
  (Config.SetTarget { Version := 1, Current := "", Vaults := none }
    "prod" "https://v.example/" false).1

/-- A store whose current record has a token that holds a NUL byte. -/
def storeNulToken : Config :=
  { Version := 1
    Current := "prod"
    Vaults := some
      [("prod", some { URL := "https://v.example/", Token := "s.\x00tok", SkipVerify := false })] }

/-- A legacy document of two aliases: one with a token and a skip flag, one whose token
is null and whose URL has no skip flag. -/
def legacyTwo : oldConfig :=
  { Current := "prod"
    Targets := [("https://v.example", Iface.string "s.prod"), ("https://dev.example", Iface.null)]
    Aliases := [("prod", "https://v.example"), ("dev", "https://dev.example")]
    SkipVerify := [("https://v.example", true)] }

/-- A legacy document whose token for the aliased URL is an integer. -/
def legacyIntToken : oldConfig :=
  { Current := "prod"
    Targets := [("https://v.example", Iface.int 42)]
    Aliases := [("prod", "https://v.example")]
    SkipVerify := [] }

/-- A legacy document whose Current is a URL that two aliases share. -/
def legacyShared : oldConfig :=
  { Current := "https://v.example"
    Targets := [("https://v.example", Iface.string "s.prod")]
    Aliases := [("a", "https://v.example"), ("b", "https://v.example")]
    SkipVerify := [] }

/-- The contents of a file under the codec docCodec: a document or a session projection. -/
inductive Doc where
  | config (c : Config)
  | session (s : Session)
deriving DecidableEq, Repr

/-- A codec whose buffers are the marshalled values themselves.  Decoding a buffer into an
oldConfig yields the empty legacy document: the keys of a marshalled Config (version,
current, vaults) and of a session name none of the legacy fields (Current, Targets,
Aliases, SkipVerify). -/
def docCodec : Codec Doc :=
  { marshalConfig := fun c => .ok (Doc.config c)
    marshalSession := fun sv => .ok (Doc.session sv)
    unmarshalConfig := fun b =>
      match b with
      | Doc.config c => .ok c
      | Doc.session _ => .error (Error.external "yaml.Unmarshal")
    unmarshalLegacy := fun _ => .ok { Current := "", Targets := [], Aliases := [], SkipVerify := [] } }

/-- Files left by an earlier Write: no primary file read yet, and the session of an
earlier target. -/
def filesOld : Files Doc :=
  { saferc := none
    svtoken := some (Doc.session { Vault := "https://old.example", Token := "old", SkipVerify := false })
    denied := [] }

/-- A process with no Vault variable set and a fallback token file. -/
def processFresh : Process :=
  { env := [("HOME", "/home/u")]
    vaultToken := some "  s.fallback\n" }

/-- A process that already has a token and a skip flag in its environment. -/
def processBusy : Process :=
  { env := [("HOME", "/home/u"), ("VAULT_TOKEN", "s.ambient"), ("VAULT_SKIP_VERIFY", "yes")]
    vaultToken := some "s.fallback" }

/-- A process with no Vault variable set whose fallback token file holds a NUL byte. -/
def processNulFile : Process :=
  { env := [("HOME", "/home/u")]
    vaultToken := some "s.\x00tok\n" }

/-! ## The range loop of Find -/

theorem findLoop_eq (want : String) (l : List (String × Option Vault)) (acc : VaultPtr × Nat) :
    findLoop want l acc =
      if hasNil l = true then .error Panic.nilDereference
      else
        .ok (match (l.filterMap (urlMatch want)).getLast? with
              | some e => some e
              | none => acc.1,
             acc.2 + (l.filterMap (urlMatch want)).length) := by
  induction l generalizing acc with
  | nil => simp [findLoop, hasNil]
  | cons a l ih =>
    obtain ⟨k, v⟩ := a
    cases v with
    | none => simp [findLoop, findStep, hasNil]
    | some v =>
      have hn : hasNil ((k, some v) :: l) = hasNil l := by simp [hasNil]
      by_cases h : TrimSuffix v.URL "/" = want
      · have hm : urlMatch want (k, some v) = some (k, v) := by simp [urlMatch, h]
        simp only [findLoop, findStep, h, if_true, ih, hn, List.filterMap_cons, hm]
        by_cases hnil : hasNil l = true
        · simp [hnil]
        · simp only [hnil, Bool.false_eq_true, if_false, Except.ok.injEq, Prod.mk.injEq,
            List.length_cons]
          refine ⟨?_, by omega⟩
          cases hf : List.filterMap (urlMatch want) l with
          | nil => simp
          | cons b m =>
            simp only [List.getLast?_cons_cons]
            cases hg : (b :: m).getLast? with
            | none => simp at hg
            | some e => rfl
      · have hm : urlMatch want (k, some v) = none := by simp [urlMatch, h]
        simp only [findLoop, findStep, h, if_false, ih, hn, List.filterMap_cons, hm]

/-- Find, case by case on the key lookup, on the nil pointers of the map and on the list
of URL matches. -/
theorem Find_eq (c : Config) (s : String) :
    c.Find s =
      match mapIndex c.entries s with
      | some v => .ok (v.map fun r => (s, r), true, none)
      | none =>
        if hasNil c.entries = true then .error Panic.nilDereference
        else
          match c.urlMatches s with
          | [] => .ok (none, false, none)
          | [e] => .ok (some e, true, none)
          | _ :: _ :: _ => .ok (none, true, some (Error.moreThanOne s)) := by
  unfold Config.Find Config.urlMatches
  cases hk : mapIndex c.entries s with
  | some v => rfl
  | none =>
    simp only [findLoop_eq]
    by_cases hnil : hasNil c.entries = true
    · simp [hnil]
    · simp only [hnil, Bool.false_eq_true, if_false]
      rcases hm : List.filterMap (urlMatch (TrimSuffix s "/")) c.entries with
        _ | ⟨a, _ | ⟨b, m⟩⟩ <;> simp

/-- The five outcomes of Find. -/
theorem Find_cases (c : Config) (s : String) :
    (∃ r, mapIndex c.entries s = some r ∧
        c.Find s = .ok (r.map fun v => (s, v), true, none)) ∨
      (mapIndex c.entries s = none ∧ hasNil c.entries = true ∧
        c.Find s = .error Panic.nilDereference) ∨
      (mapIndex c.entries s = none ∧ hasNil c.entries = false ∧ c.urlMatches s = [] ∧
        c.Find s = .ok (none, false, none)) ∨
      (∃ e, mapIndex c.entries s = none ∧ hasNil c.entries = false ∧ c.urlMatches s = [e] ∧
        c.Find s = .ok (some e, true, none)) ∨
      (mapIndex c.entries s = none ∧ hasNil c.entries = false ∧
        2 ≤ (c.urlMatches s).length ∧
        c.Find s = .ok (none, true, some (Error.moreThanOne s))) := by
  rw [Find_eq]
  cases hk : mapIndex c.entries s with
  | some v => simp
  | none =>
    by_cases hnil : hasNil c.entries = true
    · simp [hnil]
    · have hnil' : hasNil c.entries = false := by simpa using hnil
      rcases hm : c.urlMatches s with _ | ⟨e, _ | ⟨e', m⟩⟩ <;> simp [hnil']

theorem Find_of_key (c : Config) (s : String) (r : Option Vault)
    (hk : mapIndex c.entries s = some r) :
    c.Find s = .ok (r.map fun v => (s, v), true, none) := by
  rw [Find_eq, hk]

theorem Find_of_nil (c : Config) (s : String) (hk : mapIndex c.entries s = none)
    (hnil : hasNil c.entries = true) : c.Find s = .error Panic.nilDereference := by
  rw [Find_eq, hk]
  simp [hnil]

theorem Find_of_no_match (c : Config) (s : String) (hk : mapIndex c.entries s = none)
    (hnn : c.NoNil) (hno : c.urlMatches s = []) : c.Find s = .ok (none, false, none) := by
  have hnn' : hasNil c.entries = false := hnn
  rw [Find_eq, hk, hno]
  simp [hnn']

theorem Find_of_one (c : Config) (s : String) (e : String × Vault)
    (hk : mapIndex c.entries s = none) (hnn : c.NoNil) (hm : c.urlMatches s = [e]) :
    c.Find s = .ok (some e, true, none) := by
  have hnn' : hasNil c.entries = false := hnn
  rw [Find_eq, hk, hm]
  simp [hnn']

theorem Find_of_many (c : Config) (s : String) (hk : mapIndex c.entries s = none)
    (hnn : c.NoNil) (hmany : 2 ≤ (c.urlMatches s).length) :
    c.Find s = .ok (none, true, some (Error.moreThanOne s)) := by
  have hnn' : hasNil c.entries = false := hnn
  rw [Find_eq, hk]
  rcases hm : c.urlMatches s with _ | ⟨e, _ | ⟨e', m⟩⟩
  · simp [hm] at hmany
  · simp [hm] at hmany
  · simp [hnn']

theorem urlMatches_eq_nil_iff (c : Config) (s : String) :
    c.urlMatches s = [] ↔
      ∀ e ∈ c.entries, ∀ v, e.2 = some v → TrimSuffix v.URL "/" ≠ TrimSuffix s "/" := by
  unfold Config.urlMatches
  rw [List.filterMap_eq_nil_iff]
  constructor
  · intro h e he v hv heq
    have := h e he
    simp [urlMatch, hv, heq] at this
  · intro h e he
    obtain ⟨k, v⟩ := e
    cases v with
    | none => rfl
    | some v =>
      have := h (k, some v) he v rfl
      simp [urlMatch, this]

/-! ## Reading and writing map entries -/

theorem mapIndex_of_mem (l : List (String × Option Vault)) (k : String) (r : Option Vault)
    (hnd : (l.map Prod.fst).Nodup) (hmem : (k, r) ∈ l) : mapIndex l k = some r := by
  induction l with
  | nil => simp at hmem
  | cons a l ih =>
    obtain ⟨ka, va⟩ := a
    simp only [List.map_cons, List.nodup_cons, List.mem_map, not_exists, not_and] at hnd
    simp only [List.mem_cons, Prod.mk.injEq] at hmem
    rcases hmem with ⟨hk, hr⟩ | hmem
    · simp [mapIndex, hk, hr]
    · have hne : ka ≠ k := fun h => hnd.1 (k, r) hmem h.symm
      simp [mapIndex, hne, ih hnd.2 hmem]

theorem mem_of_mapIndex (l : List (String × Option Vault)) (k : String) (r : Option Vault)
    (h : mapIndex l k = some r) : (k, r) ∈ l := by
  induction l with
  | nil => simp [mapIndex] at h
  | cons a l ih =>
    obtain ⟨ka, va⟩ := a
    by_cases hk : ka = k
    · simp [mapIndex, hk] at h
      simp [hk, h]
    · simp [mapIndex, hk] at h
      exact List.mem_cons_of_mem _ (ih h)

theorem isSome_of_mem_of_hasNil (l : List (String × Option Vault)) (e : String × Option Vault)
    (hn : hasNil l = false) (he : e ∈ l) : ∃ v, e.2 = some v := by
  unfold hasNil at hn
  rw [List.any_eq_false] at hn
  have := hn e he
  cases h : e.2 with
  | none => simp [h] at this
  | some v => exact ⟨v, rfl⟩

theorem mapIndex_some_of_noNil (c : Config) (k : String) (r : Option Vault) (hnn : c.NoNil)
    (h : mapIndex c.entries k = some r) : ∃ v, r = some v :=
  isSome_of_mem_of_hasNil _ (k, r) hnn (mem_of_mapIndex _ _ _ h)

theorem mapIndex_mapStore_self (k : String) (f : Vault → Vault)
    (l : List (String × Option Vault)) :
    mapIndex (mapStore k f l) k = (mapIndex l k).map (Option.map f) := by
  induction l with
  | nil => rfl
  | cons a l ih =>
    obtain ⟨ka, va⟩ := a
    by_cases h : ka = k <;> simp [mapStore, mapIndex, h, ih]

theorem mapIndex_mapStore_ne (k k' : String) (f : Vault → Vault)
    (l : List (String × Option Vault)) (hne : k' ≠ k) :
    mapIndex (mapStore k f l) k' = mapIndex l k' := by
  induction l with
  | nil => rfl
  | cons a l ih =>
    obtain ⟨ka, va⟩ := a
    by_cases h : ka = k
    · have h' : ¬ ka = k' := fun e => hne (e.symm.trans h)
      simp [mapStore, mapIndex, h, h', Ne.symm hne]
    · by_cases h' : ka = k'
      · subst h'
        simp [mapStore, mapIndex, h]
      · simp [mapStore, mapIndex, h, h', ih]

theorem mapIndex_mapStore (k s : String) (f : Vault → Vault)
    (l : List (String × Option Vault)) :
    mapIndex (mapStore k f l) s =
      if s = k then (mapIndex l s).map (Option.map f) else mapIndex l s := by
  by_cases h : s = k
  · subst h
    simp [mapIndex_mapStore_self]
  · simp [h, mapIndex_mapStore_ne _ _ _ _ h]

theorem map_fst_mapStore (k : String) (f : Vault → Vault) (l : List (String × Option Vault)) :
    (mapStore k f l).map Prod.fst = l.map Prod.fst := by
  induction l with
  | nil => rfl
  | cons a l ih =>
    obtain ⟨ka, va⟩ := a
    by_cases h : ka = k <;> simp [mapStore, h, ih]

theorem hasNil_mapStore (k : String) (f : Vault → Vault) (l : List (String × Option Vault)) :
    hasNil (mapStore k f l) = hasNil l := by
  induction l with
  | nil => rfl
  | cons a l ih =>
    obtain ⟨ka, va⟩ := a
    have ih' : (mapStore k f l).any (fun e => e.2.isNone) = l.any (fun e => e.2.isNone) := ih
    by_cases h : ka = k
    · cases va <;> simp [mapStore, hasNil, h]
    · simp [mapStore, hasNil, h, ih']

theorem entries_mapStore (c : Config) (cur : String) (k : String) (f : Vault → Vault) :
    Config.entries { c with Current := cur, Vaults := c.Vaults.map (mapStore k f) } =
      mapStore k f c.entries := by
  cases hv : c.Vaults <;> simp [Config.entries, hv, mapStore]

theorem mapIndex_mapAssign_self (k : String) (v : Option Vault)
    (l : List (String × Option Vault)) : mapIndex (mapAssign k v l) k = some v := by
  induction l with
  | nil => simp [mapAssign, mapIndex]
  | cons a l ih =>
    obtain ⟨ka, va⟩ := a
    by_cases h : ka = k <;> simp [mapAssign, mapIndex, h, ih]

theorem hasNil_mapAssign (k : String) (v : Vault) (l : List (String × Option Vault))
    (hn : hasNil l = false) : hasNil (mapAssign k (some v) l) = false := by
  induction l with
  | nil => simp [mapAssign, hasNil]
  | cons a l ih =>
    obtain ⟨ka, va⟩ := a
    have h2 : va.isNone = false ∧ hasNil l = false := by
      simpa [hasNil] using hn
    have ih' : (mapAssign k (some v) l).any (fun e => e.2.isNone) = false := ih h2.2
    have hl : l.any (fun e => e.2.isNone) = false := h2.2
    by_cases h : ka = k
    · simp [mapAssign, hasNil, h, hl]
    · simp [mapAssign, hasNil, h, h2.1, ih']

theorem entries_SetTarget (c : Config) (k url : String) (skip : Bool) :
    (c.SetTarget k url skip).1.entries =
      mapAssign k (some { URL := url, Token := "", SkipVerify := skip }) c.entries := by
  cases hv : c.Vaults <;> simp [Config.SetTarget, Config.entries, hv]

theorem Find_SetTarget (c : Config) (k url : String) (skip : Bool) :
    (c.SetTarget k url skip).1.Find k =
      .ok (some (k, { URL := url, Token := "", SkipVerify := skip }), true, none) :=
  Find_of_key _ k (some { URL := url, Token := "", SkipVerify := skip })
    (by rw [entries_SetTarget, mapIndex_mapAssign_self])

theorem mem_entries_of_urlMatches (c : Config) (s : String) (e : String × Vault)
    (h : c.urlMatches s = [e]) : (e.1, some e.2) ∈ c.entries := by
  have hmem : e ∈ c.urlMatches s := by simp [h]
  unfold Config.urlMatches at hmem
  rw [List.mem_filterMap] at hmem
  obtain ⟨⟨k, v⟩, ha, hu⟩ := hmem
  cases v with
  | none => simp [urlMatch] at hu
  | some v =>
    by_cases hq : TrimSuffix v.URL "/" = TrimSuffix s "/"
    · simp [urlMatch, hq] at hu
      rw [← hu]
      exact ha
    · simp [urlMatch, hq] at hu

/-- SetCurrent when Find resolves the alias to the record r stored under k. -/
theorem SetCurrent_of_found (c : Config) (alias_ : String) (reskip : Bool) (k : String)
    (r : Vault) (hF : c.Find alias_ = .ok (some (k, r), true, none)) :
    c.SetCurrent alias_ reskip =
      .ok ({ c with
              Current := alias_
              Vaults := c.Vaults.map
                (mapStore k fun v => { v with SkipVerify := if reskip then true else v.SkipVerify }) },
            none) := by
  have hid : mapStore k (fun v : Vault => v) = id := by
    funext l
    induction l with
    | nil => rfl
    | cons a l ih =>
      obtain ⟨ka, va⟩ := a
      by_cases h : ka = k <;> simp_all [mapStore]
  cases reskip with
  | false => simp [Config.SetCurrent, hF, hid]
  | true => simp [Config.SetCurrent, hF]

/-! ## Find -/

/-- C1. Find is exact-match-first: whenever s is a key of Vaults, holding the pointer r,
Find(s) returns the record stored at key s (the pointer r as it is) with found = true and
a nil error, whatever the number of records whose URL equals s after trailing-slash
normalisation. -/
theorem Find_exact_match_first (c : Config) (s : String) (r : Option Vault)
    (hkey : mapIndex c.entries s = some r) :
    c.Find s = .ok (r.map fun v => (s, v), true, none) := by
  rw [Find_eq, hkey]

/-- C1 at a store where the input is an alias and two other records match it by URL. -/
theorem Find_exact_match_first_witness :
    (storeShadowed.urlMatches "https://v.example").length = 2 ∧
      storeShadowed.Find "https://v.example" =
        .ok (some ("https://v.example",
          { URL := "https://other.example", Token := "o", SkipVerify := true }), true, none) :=
  ⟨by decide,
    Find_exact_match_first storeShadowed "https://v.example"
      (some { URL := "https://other.example", Token := "o", SkipVerify := true }) (by decide)⟩

/-- C2, as stated, fails on a map that holds a nil record: on the store of the two twins
with the nil entry "n", the input "https://v.example" is no key and two records match it,
yet Find returns no error: the range loop dereferences the nil pointer and panics. -/
theorem Find_ambiguous_nil_record_panics :
    mapIndex storeNullTwins.entries "https://v.example" = none ∧
      2 ≤ (storeNullTwins.urlMatches "https://v.example").length ∧
      storeNullTwins.Find "https://v.example" = .error Panic.nilDereference := by
  refine ⟨?_, ?_, ?_⟩ <;> decide

/-- C2, amended. On a config whose map holds no nil record, Find returns, and it returns an
error exactly when s is not a key of Vaults and at least two records have a URL equal to s
after one trailing "/" is stripped from both; the result is then a nil record,
found = true and the ambiguity error carrying s.  In particular two aliases, neither
equal to the input, at "https://v.example/" and "https://v.example" make
Find("https://v.example") return the ambiguity error. -/
theorem Find_error_iff_ambiguous (c : Config) (s : String) (hnn : c.NoNil) :
    (∃ r, c.Find s = .ok r ∧
        (r.2.2 ≠ none ↔ mapIndex c.entries s = none ∧ 2 ≤ (c.urlMatches s).length) ∧
        (r.2.2 ≠ none → r = (none, true, some (Error.moreThanOne s)))) ∧
      (∀ (version : Int) (current a b : String) (ra rb : Vault),
        a ≠ "https://v.example" → b ≠ "https://v.example" →
        (ra.URL = "https://v.example/" ∧ rb.URL = "https://v.example" ∨
          ra.URL = "https://v.example" ∧ rb.URL = "https://v.example/") →
        Config.Find
            { Version := version, Current := current,
              Vaults := some [(a, some ra), (b, some rb)] }
            "https://v.example" =
          .ok (none, true, some (Error.moreThanOne "https://v.example"))) := by
  have hnn' : hasNil c.entries = false := hnn
  refine ⟨?_, ?_⟩
  · rcases Find_cases c s with ⟨r, hk, hF⟩ | ⟨_, hn, _⟩ | ⟨hk, _, hm, hF⟩ | ⟨e, hk, _, hm, hF⟩ |
      ⟨hk, _, hm, hF⟩
    · exact ⟨_, hF, by simp [hk], by simp⟩
    · rw [hnn'] at hn
      cases hn
    · exact ⟨_, hF, by simp [hk, hm], by simp⟩
    · exact ⟨_, hF, by simp [hk, hm], by simp⟩
    · exact ⟨_, hF, by simp [hk, hm], by simp⟩
  · intro version current a b ra rb ha hb hurl
    have t1 : TrimSuffix "https://v.example/" "/" = "https://v.example" := by decide
    have t2 : TrimSuffix "https://v.example" "/" = "https://v.example" := by decide
    rw [Find_eq]
    rcases hurl with ⟨h1, h2⟩ | ⟨h1, h2⟩ <;>
      simp [Config.entries, Config.urlMatches, urlMatch, hasNil, mapIndex, ha, hb, h1, h2,
        t1, t2]

/-- C2, amended, at the store of the two twins: it holds no nil record, the input is no
alias, two records match it, and Find returns the ambiguity error with a nil record. -/
theorem Find_error_iff_ambiguous_witness :
    storeTwins.NoNil ∧
      (mapIndex storeTwins.entries "https://v.example" = none ∧
        2 ≤ (storeTwins.urlMatches "https://v.example").length) ∧
      storeTwins.Find "https://v.example" =
        .ok (none, true, some (Error.moreThanOne "https://v.example")) ∧
      ∃ r, storeTwins.Find "https://v.example" = .ok r ∧
        (r.2.2 ≠ none ↔
          mapIndex storeTwins.entries "https://v.example" = none ∧
            2 ≤ (storeTwins.urlMatches "https://v.example").length) ∧
        (r.2.2 ≠ none → r = (none, true, some (Error.moreThanOne "https://v.example"))) :=
  ⟨by decide, by decide, by decide,
    (Find_error_iff_ambiguous storeTwins "https://v.example" (by decide)).1⟩

/-- C3, as stated, fails on a map that holds a nil record: on the store of the alias
"prod" with the nil entry "n", the input "https://v.example" is no key and exactly one
record matches it, yet Find does not return that record: the range loop dereferences the
nil pointer and panics. -/
theorem Find_unique_nil_record_panics :
    mapIndex storeNullProd.entries "https://v.example" = none ∧
      storeNullProd.urlMatches "https://v.example" =
        [("prod", { URL := "https://v.example/", Token := "t", SkipVerify := false })] ∧
      storeNullProd.Find "https://v.example" = .error Panic.nilDereference := by
  refine ⟨?_, ?_, ?_⟩ <;> decide

/-- C3, amended. URL fallback with a unique match: on a config whose map holds no nil
record, when s is not a key of Vaults and exactly one record e has a URL equal to s after a
single trailing "/" is stripped from both, Find(s) returns e with found = true and a nil
error.  With the single entry "prod" at "https://v.example/", Find("https://v.example")
returns the prod record. -/
theorem Find_unique_url_match (c : Config) (s : String) (hnn : c.NoNil) :
    (∀ e : String × Vault, mapIndex c.entries s = none → c.urlMatches s = [e] →
        c.Find s = .ok (some e, true, none)) ∧
      (∀ (version : Int) (current token : String) (skip : Bool),
        Config.Find
            { Version := version, Current := current,
              Vaults := some
                [("prod", some { URL := "https://v.example/", Token := token, SkipVerify := skip })] }
            "https://v.example" =
          .ok (some ("prod", { URL := "https://v.example/", Token := token, SkipVerify := skip }),
            true, none)) := by
  refine ⟨?_, ?_⟩
  · intro e hk hm
    exact Find_of_one c s e hk hnn hm
  · intro version current token skip
    have t1 : TrimSuffix "https://v.example/" "/" = "https://v.example" := by decide
    have t2 : TrimSuffix "https://v.example" "/" = "https://v.example" := by decide
    have hne : ¬ ("prod" = "https://v.example") := by decide
    rw [Find_eq]
    simp [Config.entries, Config.urlMatches, urlMatch, hasNil, mapIndex, hne, t1, t2]

/-- C3, amended, at the store of three records, for an input with a trailing slash that
only the record of the alias "https://v.example" matches. -/
theorem Find_unique_url_match_witness :
    storeShadowed.NoNil ∧
      (mapIndex storeShadowed.entries "https://other.example/" = none ∧
        storeShadowed.urlMatches "https://other.example/" =
          [("https://v.example",
            { URL := "https://other.example", Token := "o", SkipVerify := true })]) ∧
      storeShadowed.Find "https://other.example/" =
        .ok (some ("https://v.example",
          { URL := "https://other.example", Token := "o", SkipVerify := true }), true, none) :=
  ⟨by decide, by decide,
    (Find_unique_url_match storeShadowed "https://other.example/" (by decide)).1 _
      (by decide) (by decide)⟩

/-- C4, as stated, fails on a map that holds a nil record: on the store whose only alias
"n" holds a nil pointer, the input "missing" is no key and no record has a matching URL,
yet Find does not report found = false: the range loop dereferences the nil pointer and
panics. -/
theorem Find_not_found_nil_record_panics :
    mapIndex storeNullOnly.entries "missing" = none ∧
      (∀ e ∈ storeNullOnly.entries, ∀ v, e.2 = some v →
        TrimSuffix v.URL "/" ≠ TrimSuffix "missing" "/") ∧
      storeNullOnly.Find "missing" = .error Panic.nilDereference := by
  refine ⟨?_, ?_, ?_⟩ <;> decide

/-- C4, amended. On a config whose map holds no nil record, Find returns, and it reports
found = false exactly when s is not a key of Vaults and no record has a URL equal to s
after a single trailing "/" is stripped from both; whenever found = false the returned
record is nil and the error is nil. -/
theorem Find_not_found_iff (c : Config) (s : String) (hnn : c.NoNil) :
    ∃ r, c.Find s = .ok r ∧
      (r.2.1 = false ↔
        mapIndex c.entries s = none ∧
          ∀ e ∈ c.entries, ∀ v, e.2 = some v →
            TrimSuffix v.URL "/" ≠ TrimSuffix s "/") ∧
      (r.2.1 = false → r = (none, false, none)) := by
  have hnn' : hasNil c.entries = false := hnn
  rw [← urlMatches_eq_nil_iff]
  rcases Find_cases c s with ⟨r, hk, hF⟩ | ⟨_, hn, _⟩ | ⟨hk, _, hm, hF⟩ | ⟨e, hk, _, hm, hF⟩ |
    ⟨hk, _, hm, hF⟩
  · exact ⟨_, hF, by simp [hk], by simp⟩
  · rw [hnn'] at hn
    cases hn
  · exact ⟨_, hF, by simp [hk, hm], by simp⟩
  · exact ⟨_, hF, by simp [hk, hm], by simp⟩
  · refine ⟨_, hF, ?_, by simp⟩
    have : c.urlMatches s ≠ [] := by
      intro h
      rw [h] at hm
      simp at hm
    simp [hk, this]

/-- C4, amended, at the store of the single alias "prod" and the input "missing". -/
theorem Find_not_found_iff_witness :
    storeProd.NoNil ∧
      (mapIndex storeProd.entries "missing" = none ∧
        ∀ e ∈ storeProd.entries, ∀ v, e.2 = some v →
          TrimSuffix v.URL "/" ≠ TrimSuffix "missing" "/") ∧
      storeProd.Find "missing" = .ok (none, false, none) ∧
      ∃ r, storeProd.Find "missing" = .ok r ∧
        (r.2.1 = false ↔
          mapIndex storeProd.entries "missing" = none ∧
            ∀ e ∈ storeProd.entries, ∀ v, e.2 = some v →
              TrimSuffix v.URL "/" ≠ TrimSuffix "missing" "/") ∧
        (r.2.1 = false → r = (none, false, none)) :=
  ⟨by decide, by decide, by decide, Find_not_found_iff storeProd "missing" (by decide)⟩

/-! ## SetCurrent -/

/-- C5, as stated, fails on a map that holds a nil record: on the store of the alias "prod"
with the nil entry "n", the alias "missing" is no key and matches no record by URL, yet
SetCurrent("missing") returns no error: Find dereferences the nil pointer and panics. -/
theorem SetCurrent_missing_nil_record_panics :
    mapIndex storeNullProd.entries "missing" = none ∧
      (∀ e ∈ storeNullProd.entries, ∀ v, e.2 = some v →
        TrimSuffix v.URL "/" ≠ TrimSuffix "missing" "/") ∧
      storeNullProd.SetCurrent "missing" true = .error Panic.nilDereference ∧
      storeNullProd.SetCurrent "missing" false = .error Panic.nilDereference := by
  refine ⟨?_, ?_, ?_, ?_⟩ <;> decide

/-- C5, amended. SetCurrent failure is atomic: on a config whose map holds no nil record,
when the alias is neither a key of Vaults nor matches the normalised URL of any record,
SetCurrent returns the error "Unknown target" and the config is unchanged; when the
lookup is ambiguous it returns the ambiguity error of Find and the config is unchanged; and
whenever SetCurrent returns an error the config it leaves is the one it was given. -/
theorem SetCurrent_failure_atomic (c : Config) (alias_ : String) (reskip : Bool)
    (hnn : c.NoNil) :
    (mapIndex c.entries alias_ = none →
        (∀ e ∈ c.entries, ∀ v, e.2 = some v →
          TrimSuffix v.URL "/" ≠ TrimSuffix alias_ "/") →
        c.SetCurrent alias_ reskip = .ok (c, some (Error.unknownTarget alias_))) ∧
      (mapIndex c.entries alias_ = none → 2 ≤ (c.urlMatches alias_).length →
        c.SetCurrent alias_ reskip = .ok (c, some (Error.moreThanOne alias_))) ∧
      (∀ c' err, c.SetCurrent alias_ reskip = .ok (c', some err) → c' = c) := by
  refine ⟨?_, ?_, ?_⟩
  · intro hk hno
    have hF := Find_of_no_match c alias_ hk hnn ((urlMatches_eq_nil_iff c alias_).2 hno)
    simp [Config.SetCurrent, hF]
  · intro hk hmany
    have hF := Find_of_many c alias_ hk hnn hmany
    simp [Config.SetCurrent, hF]
  · intro c' err h
    rcases Find_cases c alias_ with ⟨r, _, hF⟩ | ⟨_, _, hF⟩ | ⟨_, _, _, hF⟩ | ⟨e, _, _, _, hF⟩ |
      ⟨_, _, _, hF⟩
    · cases r <;> cases reskip <;> simp [Config.SetCurrent, hF] at h
    · simp [Config.SetCurrent, hF] at h
    · simp [Config.SetCurrent, hF] at h
      exact h.1.symm
    · cases reskip <;> simp [Config.SetCurrent, hF] at h
    · simp [Config.SetCurrent, hF] at h
      exact h.1.symm

/-- C5, amended, at the store of the single alias "prod", for SetCurrent("missing"), and at
the store of the two twins, for an input that both match. -/
theorem SetCurrent_failure_atomic_witness :
    storeProd.NoNil ∧ storeTwins.NoNil ∧
      storeProd.SetCurrent "missing" true =
        .ok (storeProd, some (Error.unknownTarget "missing")) ∧
      storeTwins.SetCurrent "https://v.example/" true =
        .ok (storeTwins, some (Error.moreThanOne "https://v.example/")) :=
  ⟨by decide, by decide,
    (SetCurrent_failure_atomic storeProd "missing" true (by decide)).1 (by decide) (by decide),
    (SetCurrent_failure_atomic storeTwins "https://v.example/" true (by decide)).2.1
      (by decide) (by decide)⟩

/-- C6, as stated, fails on a map that holds a nil record: on the store whose only alias
"n" holds a nil pointer, Find("n") returns found = true with a nil error (and a nil
record), yet SetCurrent("n", true) does not succeed: it panics on the field SkipVerify of
the nil record; and SetCurrent("n", false) succeeds with no record to speak of. -/
theorem SetCurrent_nil_record_panics :
    storeNullOnly.Find "n" = .ok (none, true, none) ∧
      storeNullOnly.SetCurrent "n" true = .error Panic.nilDereference ∧
      storeNullOnly.SetCurrent "n" false =
        .ok ({ Version := 1, Current := "n", Vaults := some [("n", none)] }, none) := by
  refine ⟨?_, ?_, ?_⟩ <;> decide

/-- C6, amended. SetCurrent success effect and frame: on a config whose map holds no nil
record, SetCurrent returns a nil error exactly when Find(alias) returns found with a nil
error; then Current is the string alias as given, the resolved record has SkipVerify true
if the flag is set and as it was if not, with its URL and Token as they were, every other
record is as it was, and so are the set of aliases and Version. -/
theorem SetCurrent_success_effect (c : Config) (alias_ : String) (reskip : Bool)
    (hwf : c.WF) (hnn : c.NoNil) :
    ((∃ c', c.SetCurrent alias_ reskip = .ok (c', none)) ↔
        ∃ v, c.Find alias_ = .ok (v, true, none)) ∧
      (∀ c', c.SetCurrent alias_ reskip = .ok (c', none) →
        ∃ k r, c.Find alias_ = .ok (some (k, r), true, none) ∧
          mapIndex c.entries k = some (some r) ∧
          c'.Current = alias_ ∧
          c'.Version = c.Version ∧
          mapIndex c'.entries k =
            some (some { URL := r.URL, Token := r.Token,
                         SkipVerify := if reskip then true else r.SkipVerify }) ∧
          (∀ k', k' ≠ k → mapIndex c'.entries k' = mapIndex c.entries k') ∧
          c'.entries.map Prod.fst = c.entries.map Prod.fst) := by
  have hnn' : hasNil c.entries = false := hnn
  have key : ∀ (k : String) (r : Vault), c.Find alias_ = .ok (some (k, r), true, none) →
      mapIndex c.entries k = some (some r) →
      ((∃ c', c.SetCurrent alias_ reskip = .ok (c', none)) ↔
        ∃ v, c.Find alias_ = .ok (v, true, none)) ∧
      (∀ c', c.SetCurrent alias_ reskip = .ok (c', none) →
        ∃ k r, c.Find alias_ = .ok (some (k, r), true, none) ∧
          mapIndex c.entries k = some (some r) ∧
          c'.Current = alias_ ∧
          c'.Version = c.Version ∧
          mapIndex c'.entries k =
            some (some { URL := r.URL, Token := r.Token,
                         SkipVerify := if reskip then true else r.SkipVerify }) ∧
          (∀ k', k' ≠ k → mapIndex c'.entries k' = mapIndex c.entries k') ∧
          c'.entries.map Prod.fst = c.entries.map Prod.fst) := by
    intro k r hF hk
    refine ⟨by simp [SetCurrent_of_found c alias_ reskip k r hF, hF], ?_⟩
    intro c' h
    rw [SetCurrent_of_found c alias_ reskip k r hF] at h
    simp only [Except.ok.injEq, Prod.mk.injEq, and_true] at h
    subst h
    refine ⟨k, r, hF, hk, rfl, rfl, ?_, ?_, ?_⟩
    · rw [entries_mapStore, mapIndex_mapStore_self, hk]; rfl
    · intro k' hne
      rw [entries_mapStore, mapIndex_mapStore_ne _ _ _ _ hne]
    · rw [entries_mapStore, map_fst_mapStore]
  rcases Find_cases c alias_ with ⟨r, hk, hF⟩ | ⟨_, hn, _⟩ | ⟨_, _, _, hF⟩ |
    ⟨⟨k, r⟩, _, _, hm, hF⟩ | ⟨_, _, _, hF⟩
  · obtain ⟨v, rfl⟩ := mapIndex_some_of_noNil c alias_ r hnn hk
    exact key alias_ v hF hk
  · rw [hnn'] at hn
    cases hn
  · simp [Config.SetCurrent, hF]
  · exact key k r hF (mapIndex_of_mem _ _ _ hwf (mem_entries_of_urlMatches c alias_ _ hm))
  · simp [Config.SetCurrent, hF]

/-- C6, amended, at the store of the two twins: SetCurrent("a", true) succeeds, makes "a"
current, forces SkipVerify on the record of "a" and leaves every other record as it was. -/
theorem SetCurrent_success_effect_witness :
    storeTwins.WF ∧ storeTwins.NoNil ∧
      storeTwins.SetCurrent "a" true = .ok (storeTwinsA, none) ∧
      ∃ k r, storeTwins.Find "a" = .ok (some (k, r), true, none) ∧
        mapIndex storeTwins.entries k = some (some r) ∧
        storeTwinsA.Current = "a" ∧
        storeTwinsA.Version = storeTwins.Version ∧
        mapIndex storeTwinsA.entries k =
          some (some { URL := r.URL, Token := r.Token,
                       SkipVerify := if true = true then true else r.SkipVerify }) ∧
        (∀ k', k' ≠ k → mapIndex storeTwinsA.entries k' = mapIndex storeTwins.entries k') ∧
        storeTwinsA.entries.map Prod.fst = storeTwins.entries.map Prod.fst :=
  ⟨by decide, by decide, by decide,
    (SetCurrent_success_effect storeTwins "a" true (by decide) (by decide)).2 storeTwinsA
      (by decide)⟩

/-! ## SetTarget -/

/-- C7. After SetTarget(alias, url, skip), on any config (one with a nil Vaults map
included), URL() returns url and Verified() returns the negation of skip; after
SetTarget("stage", "https://stage/", true), URL() is "https://stage/" and Verified() is
false. -/
theorem SetTarget_URL_Verified (c : Config) (alias_ url : String) (skip : Bool) :
    (c.SetTarget alias_ url skip).1.URL = .ok url ∧
      (c.SetTarget alias_ url skip).1.Verified = .ok (!skip) ∧
      (c.SetTarget "stage" "https://stage/" true).1.URL = .ok "https://stage/" ∧
      (c.SetTarget "stage" "https://stage/" true).1.Verified = .ok false ∧
      (∀ (version : Int) (current : String),
        Config.URL
            (Config.SetTarget { Version := version, Current := current, Vaults := none }
              alias_ url skip).1 = .ok url ∧
          Config.Verified
            (Config.SetTarget { Version := version, Current := current, Vaults := none }
              alias_ url skip).1 = .ok (!skip)) := by
  have hcur : ∀ (c : Config) (a u : String) (s : Bool), (c.SetTarget a u s).1.Current = a :=
    fun _ _ _ _ => rfl
  have hU : ∀ (c : Config) (a u : String) (s : Bool), (c.SetTarget a u s).1.URL = .ok u := by
    intro c a u s
    simp [Config.URL, hcur, Find_SetTarget]
  have hV : ∀ (c : Config) (a u : String) (s : Bool),
      (c.SetTarget a u s).1.Verified = .ok (!s) := by
    intro c a u s
    simp [Config.Verified, hcur, Find_SetTarget]
  exact ⟨hU _ _ _ _, hV _ _ _ _, hU _ _ _ _, hV _ _ _ _, fun _ _ => ⟨hU _ _ _ _, hV _ _ _ _⟩⟩

/-- C8, as stated, fails for the empty alias: after SetTarget("", "https://stage/", true)
the lookup Vault("") returns a nil record (and a nil error), not the record written. -/
theorem SetTarget_empty_alias_Vault :
    (storeProd.SetTarget "" "https://stage/" true).1.Vault "" = .ok (none, none) ∧
      (storeProd.SetTarget "" "https://stage/" true).1.Vault "" ≠
        .ok (some ("", { URL := "https://stage/", Token := "", SkipVerify := true }), none) := by
  constructor <;> decide

/-- C8, amended. After SetTarget(alias, url, skip) the record stored at alias is the one
of URL url, empty Token and SkipVerify skip, whatever record and token alias held before;
for a non-empty alias the lookup Vault("") returns that record with a nil error, and for
the empty alias it returns a nil record and a nil error (no target selected). -/
theorem SetTarget_makes_current (c : Config) (alias_ url : String) (skip : Bool) :
    mapIndex (c.SetTarget alias_ url skip).1.entries alias_ =
        some (some { URL := url, Token := "", SkipVerify := skip }) ∧
      (alias_ ≠ "" →
        (c.SetTarget alias_ url skip).1.Vault "" =
          .ok (some (alias_, { URL := url, Token := "", SkipVerify := skip }), none)) ∧
      (alias_ = "" → (c.SetTarget alias_ url skip).1.Vault "" = .ok (none, none)) := by
  have hcur : (c.SetTarget alias_ url skip).1.Current = alias_ := rfl
  refine ⟨by rw [entries_SetTarget, mapIndex_mapAssign_self], ?_, ?_⟩
  · intro hne
    simp [Config.Vault, hcur, hne, Find_SetTarget]
  · intro he
    subst he
    simp [Config.Vault, hcur]

/-- C8, amended, at the store of the single alias "prod", whose record is overwritten. -/
theorem SetTarget_makes_current_witness :
    mapIndex storeProd.entries "prod" =
        some (some { URL := "https://v.example/", Token := "t", SkipVerify := false }) ∧
      (storeProd.SetTarget "prod" "https://stage/" true).1.Vault "" =
        .ok (some ("prod", { URL := "https://stage/", Token := "", SkipVerify := true }), none) :=
  ⟨by decide, (SetTarget_makes_current storeProd "prod" "https://stage/" true).2.1 (by decide)⟩

/-! ## SetToken -/

/-- C9, the failing input. On the store of the two twins, whose Current
"https://v.example" is no alias and matches the URL of both records, SetToken does not
return an error: it dereferences the nil record that Find returned and panics. -/
theorem SetToken_ambiguous_current_panics :
    storeTwins.Current = "https://v.example" ∧
      storeTwins.Find storeTwins.Current =
        .ok (none, true, some (Error.moreThanOne "https://v.example")) ∧
      storeTwins.SetToken "s.token" = .error Panic.nilDereference := by
  refine ⟨rfl, ?_, ?_⟩ <;> decide

/-- SetToken panics exactly when Current is non-empty and either is an alias holding a nil
pointer, or is no alias while the map holds a nil pointer or two records or more match
Current by URL. -/
theorem SetToken_panics_iff (c : Config) (token : String) :
    (∃ p, c.SetToken token = .error p) ↔
      c.Current ≠ "" ∧
        (mapIndex c.entries c.Current = some none ∨
          (mapIndex c.entries c.Current = none ∧
            (hasNil c.entries = true ∨ 2 ≤ (c.urlMatches c.Current).length))) := by
  by_cases hc : c.Current = ""
  · simp [Config.SetToken, hc]
  · rcases Find_cases c c.Current with ⟨r, hk, hF⟩ | ⟨hk, hn, hF⟩ | ⟨hk, hn, hm, hF⟩ |
      ⟨⟨k, r⟩, hk, hn, hm, hF⟩ | ⟨hk, hn, hm, hF⟩
    · cases r <;> simp [Config.SetToken, hc, hF, hk]
    · simp [Config.SetToken, hc, hF, hk, hn]
    · simp [Config.SetToken, hc, hF, hk, hn, hm]
    · simp [Config.SetToken, hc, hF, hk, hn, hm]
    · simp [Config.SetToken, hc, hF, hk, hn, hm]

/-! ## URL and Verified -/

/-- C10, the failing input. With Current empty and a single record whose URL is "/", URL()
returns "/" and Verified() returns true, where Vault("") reports that no target is
selected. -/
theorem URL_Verified_empty_current :
    storeRoot.Current = "" ∧
      storeRoot.URL = .ok "/" ∧
      storeRoot.Verified = .ok true ∧
      storeRoot.Vault "" = .ok (none, none) := by
  refine ⟨rfl, ?_, ?_, ?_⟩ <;> decide

/-- C11, the failing input. On the store of the two twins, whose Current
"https://v.example" is non-empty, is no alias and matches the URL of both records,
Vault("") returns the ambiguity error, and URL() and Verified() do not return their
defaults: each dereferences the nil record that Find returned and panics. -/
theorem URL_Verified_ambiguous_current_panic :
    storeTwins.Current ≠ "" ∧
      storeTwins.Vault "" = .ok (none, some (Error.moreThanOne "https://v.example")) ∧
      storeTwins.URL = .error Panic.nilDereference ∧
      storeTwins.Verified = .error Panic.nilDereference := by
  refine ⟨?_, ?_, ?_, ?_⟩ <;> decide

/-- URL() and Verified() panic exactly when Current is an alias holding a nil pointer, or
is no alias while the map holds a nil pointer or two records or more match Current by URL;
when Find(Current) reports found = false they return "" and false. -/
theorem URL_Verified_unresolved (c : Config) :
    ((∃ p, c.URL = .error p) ↔
        (mapIndex c.entries c.Current = some none ∨
          (mapIndex c.entries c.Current = none ∧
            (hasNil c.entries = true ∨ 2 ≤ (c.urlMatches c.Current).length)))) ∧
      ((∃ p, c.Verified = .error p) ↔
        (mapIndex c.entries c.Current = some none ∨
          (mapIndex c.entries c.Current = none ∧
            (hasNil c.entries = true ∨ 2 ≤ (c.urlMatches c.Current).length)))) ∧
      (∀ v err, c.Find c.Current = .ok (v, false, err) →
        c.URL = .ok "" ∧ c.Verified = .ok false) := by
  rcases Find_cases c c.Current with ⟨r, hk, hF⟩ | ⟨hk, hn, hF⟩ | ⟨hk, hn, hm, hF⟩ |
    ⟨⟨k, r⟩, hk, hn, hm, hF⟩ | ⟨hk, hn, hm, hF⟩
  · cases r <;> simp [Config.URL, Config.Verified, hF, hk]
  · simp [Config.URL, Config.Verified, hF, hk, hn]
  · simp [Config.URL, Config.Verified, hF, hk, hn, hm]
  · simp [Config.URL, Config.Verified, hF, hk, hn, hm]
  · simp [Config.URL, Config.Verified, hF, hk, hn, hm]

/-- A config of this kind comes out of Read: the legacy document legacyShared, whose
Current is a URL that two aliases share, converts to a config on which URL() and
SetToken panic. -/
theorem convert_shared_url_panics :
    ∃ c, legacyShared.convert = .ok c ∧ c.URL = .error Panic.nilDereference ∧
      c.Verified = .error Panic.nilDereference ∧
      c.SetToken "s.token" = .error Panic.nilDereference :=
  ⟨{ Version := 1
     Current := "https://v.example"
     Vaults := some
       [ ("a", some { URL := "https://v.example", Token := "s.prod", SkipVerify := false }),
         ("b", some { URL := "https://v.example", Token := "s.prod", SkipVerify := false }) ] },
    by decide, by decide, by decide, by decide⟩

/-! ## Vault -/

/-- Vault in terms of the effective name. -/
theorem Vault_eq (c : Config) (which : String) :
    c.Vault which =
      if (if which = "" then c.Current else which) = "" then .ok (none, none)
      else
        match c.Find (if which = "" then c.Current else which) with
        | .error p => .error p
        | .ok (_, _, some err) => .ok (none, some err)
        | .ok (_, false, none) =>
          .ok (none, some (Error.notFound (if which = "" then c.Current else which)))
        | .ok (v, true, none) => .ok (v, none) := rfl

theorem Vault_current_eq_none_iff (c : Config) :
    c.Vault "" = .ok (none, none) ↔
      c.Current = "" ∨ mapIndex c.entries c.Current = some none := by
  rw [Vault_eq]
  by_cases hc : c.Current = ""
  · simp [hc]
  · rcases Find_cases c c.Current with ⟨r, hk, hF⟩ | ⟨hk, _, hF⟩ | ⟨hk, _, _, hF⟩ |
      ⟨e, hk, _, _, hF⟩ | ⟨hk, _, _, hF⟩
    · cases r <;> simp [hc, hF, hk]
    · simp [hc, hF, hk]
    · simp [hc, hF, hk]
    · simp [hc, hF, hk]
    · simp [hc, hF, hk]

/-- C12. Vault("") behaves as Vault(Current); when which and Current are both empty it
returns a nil record and a nil error; for a non-empty effective name w (which, or Current
when which is empty) it returns the record Find(w) locates with a nil error, the error
"not found" carrying w when Find reports found = false, and the error of Find when Find
reports one (and it panics when Find does, and returns a nil record with a nil error when
Find returns the nil pointer stored under w: one of these applies); a record is never
returned together with an error.  The result of a nil record and a nil error stands for an
empty effective name or a nil pointer stored under it, so on a map with no nil record for
an empty effective name only. -/
theorem Vault_resolution (c : Config) (which : String) :
    c.Vault "" = c.Vault c.Current ∧
      (c.Current = "" → c.Vault "" = .ok (none, none)) ∧
      (c.Vault which = .ok (none, none) ↔
        (if which = "" then c.Current else which) = "" ∨
          mapIndex c.entries (if which = "" then c.Current else which) = some none) ∧
      (c.NoNil →
        (c.Vault which = .ok (none, none) ↔ (if which = "" then c.Current else which) = "")) ∧
      ((if which = "" then c.Current else which) ≠ "" →
        (∀ p, c.Find (if which = "" then c.Current else which) = .ok (some p, true, none) →
            c.Vault which = .ok (some p, none)) ∧
          (∀ v err, c.Find (if which = "" then c.Current else which) = .ok (v, false, err) →
            c.Vault which =
              .ok (none, some (Error.notFound (if which = "" then c.Current else which)))) ∧
          (∀ v ok err,
            c.Find (if which = "" then c.Current else which) = .ok (v, ok, some err) →
            c.Vault which = .ok (none, some err)) ∧
          (∀ p, c.Find (if which = "" then c.Current else which) = .error p →
            c.Vault which = .error p) ∧
          (c.Find (if which = "" then c.Current else which) = .ok (none, true, none) →
            c.Vault which = .ok (none, none)) ∧
          ((∃ p, c.Find (if which = "" then c.Current else which) = .ok (some p, true, none)) ∨
            (∃ v err, c.Find (if which = "" then c.Current else which) = .ok (v, false, err)) ∨
            (∃ v ok err,
              c.Find (if which = "" then c.Current else which) = .ok (v, ok, some err)) ∨
            (∃ p, c.Find (if which = "" then c.Current else which) = .error p) ∨
            c.Find (if which = "" then c.Current else which) = .ok (none, true, none))) ∧
      (∀ v err, c.Vault which = .ok (v, some err) → v = none) := by
  have hiff : ∀ w : String,
      ((if w = "" then (Except.ok (none, none) : Except Panic (VaultPtr × Option Error))
        else
          match c.Find w with
          | .error p => .error p
          | .ok (_, _, some err) => .ok (none, some err)
          | .ok (_, false, none) => .ok (none, some (Error.notFound w))
          | .ok (v, true, none) => .ok (v, none)) = .ok (none, none) ↔
        w = "" ∨ mapIndex c.entries w = some none) := by
    intro w
    by_cases hw : w = ""
    · simp [hw]
    · rcases Find_cases c w with ⟨r, hk, hF⟩ | ⟨hk, _, hF⟩ | ⟨hk, _, _, hF⟩ |
        ⟨e, hk, _, _, hF⟩ | ⟨hk, _, _, hF⟩
      · cases r <;> simp [hw, hF, hk]
      · simp [hw, hF, hk]
      · simp [hw, hF, hk]
      · simp [hw, hF, hk]
      · simp [hw, hF, hk]
  refine ⟨?_, ?_, ?_, ?_, ?_, ?_⟩
  · rw [Vault_eq c "", Vault_eq c c.Current]
    by_cases hc : c.Current = "" <;> simp [hc]
  · intro hc
    rw [Vault_eq]
    simp [hc]
  · rw [Vault_eq c which]
    exact hiff _
  · intro hnn
    rw [Vault_eq c which, hiff]
    constructor
    · rintro (h | h)
      · exact h
      · obtain ⟨v, hv⟩ := mapIndex_some_of_noNil c _ _ hnn h
        cases hv
    · exact Or.inl
  · rw [Vault_eq c which]
    generalize (if which = "" then c.Current else which) = w
    intro hw
    rcases Find_cases c w with ⟨r, _, hF⟩ | ⟨_, _, hF⟩ | ⟨_, _, _, hF⟩ | ⟨e, _, _, _, hF⟩ |
      ⟨_, _, _, hF⟩
    · cases r <;> simp [hw, hF]
    · simp [hw, hF]
    · simp [hw, hF]
    · simp [hw, hF]
    · simp [hw, hF]
  · rw [Vault_eq c which]
    generalize (if which = "" then c.Current else which) = w
    by_cases hw : w = ""
    · simp [hw]
    · rcases Find_cases c w with ⟨r, _, hF⟩ | ⟨_, _, hF⟩ | ⟨_, _, _, hF⟩ | ⟨e, _, _, _, hF⟩ |
        ⟨_, _, _, hF⟩
      · cases r <;> simp [hw, hF]
      · simp [hw, hF]
      · simp [hw, hF]
      · simp [hw, hF]
      · simp [hw, hF]

/-- C12 at the store of three records: Vault("") resolves the current alias "prod",
Vault("missing") returns the error "not found", and on the store of the two twins
Vault("") returns the ambiguity error of Find. -/
theorem Vault_resolution_witness :
    storeShadowed.Vault "" =
        .ok (some ("prod", { URL := "https://v.example/", Token := "p", SkipVerify := false }),
          none) ∧
      storeShadowed.Vault "missing" = .ok (none, some (Error.notFound "missing")) ∧
      storeTwins.Vault "" = .ok (none, some (Error.moreThanOne "https://v.example")) :=
  ⟨(Vault_resolution storeShadowed "").2.2.2.2.1 (by decide) |>.1 _ (by decide),
    (Vault_resolution storeShadowed "missing").2.2.2.2.1 (by decide) |>.2.1 none none
      (by decide),
    (Vault_resolution storeTwins "").2.2.2.2.1 (by decide) |>.2.2.1 none true _ (by decide)⟩

/-! ## Find and the order of the entries -/

theorem hasNil_perm (l l' : List (String × Option Vault)) (hperm : l.Perm l') :
    hasNil l = hasNil l' := by
  unfold hasNil
  rw [Bool.eq_iff_iff, List.any_eq_true, List.any_eq_true]
  constructor
  · rintro ⟨e, he, h⟩
    exact ⟨e, hperm.subset he, h⟩
  · rintro ⟨e, he, h⟩
    exact ⟨e, hperm.symm.subset he, h⟩

theorem mapIndex_perm (l l' : List (String × Option Vault)) (k : String)
    (hnd : (l.map Prod.fst).Nodup) (hperm : l.Perm l') : mapIndex l k = mapIndex l' k := by
  have hnd' : (l'.map Prod.fst).Nodup := (hperm.map Prod.fst).nodup_iff.1 hnd
  apply Option.ext
  intro r
  constructor
  · intro h
    exact mapIndex_of_mem _ _ _ hnd' (hperm.subset (mem_of_mapIndex _ _ _ h))
  · intro h
    exact mapIndex_of_mem _ _ _ hnd (hperm.symm.subset (mem_of_mapIndex _ _ _ h))

/-- C20. Find does not depend on the order in which the range loop visits the map: for
two lists of entries with distinct aliases that are permutations of each other, Find(s)
returns the same record, the same found flag and the same error (and panics in the one
order exactly when it panics in the other). -/
theorem Find_perm_invariant (c c' : Config) (s : String) (hwf : c.WF)
    (hperm : c.entries.Perm c'.entries) : c.Find s = c'.Find s := by
  have hidx : mapIndex c.entries s = mapIndex c'.entries s :=
    mapIndex_perm _ _ _ hwf hperm
  have hnil : hasNil c.entries = hasNil c'.entries := hasNil_perm _ _ hperm
  have hm : (c.urlMatches s).Perm (c'.urlMatches s) := hperm.filterMap _
  rw [Find_eq c s, Find_eq c' s, ← hidx, ← hnil]
  cases hk : mapIndex c.entries s with
  | some v => rfl
  | none =>
    by_cases hn : hasNil c.entries = true
    · simp [hn]
    · simp only [hn, Bool.false_eq_true, if_false]
      rcases hcm : c.urlMatches s with _ | ⟨e, _ | ⟨e', m⟩⟩
      · rw [hcm] at hm
        rw [List.nil_perm.1 hm]
      · rw [hcm] at hm
        rw [List.perm_singleton.1 hm.symm]
      · rw [hcm] at hm
        have hlen : 2 ≤ (c'.urlMatches s).length := by
          rw [← hm.length_eq]
          simp
        rcases hcm' : c'.urlMatches s with _ | ⟨d, _ | ⟨d', m'⟩⟩
        · simp [hcm'] at hlen
        · simp [hcm'] at hlen
        · rfl

/-- C20 at the single-URL match of the store of three records, visited in two orders. -/
theorem Find_perm_invariant_witness :
    storeShadowed.WF ∧ storeShadowed.entries.Perm storeShadowedRev.entries ∧
      storeShadowed.Find "https://other.example/" =
        storeShadowedRev.Find "https://other.example/" :=
  ⟨by decide, by decide,
    Find_perm_invariant storeShadowed storeShadowedRev "https://other.example/" (by decide)
      (by decide)⟩

/-! ## The legacy conversion -/

theorem mem_of_mapGet {β : Type} (l : List (String × β)) (k : String) (v : β)
    (h : mapGet l k = some v) : (k, v) ∈ l := by
  induction l with
  | nil => simp [mapGet] at h
  | cons a l ih =>
    obtain ⟨ka, va⟩ := a
    by_cases hk : ka = k
    · simp [mapGet, hk] at h
      simp [hk, h]
    · simp [mapGet, hk] at h
      exact List.mem_cons_of_mem _ (ih h)

theorem convertEntry_of_stringTokens (legacy : oldConfig) (htok : legacy.StringTokens)
    (url : String) : convertEntry legacy url = .ok (legacyRecord legacy url) := by
  unfold convertEntry legacyRecord
  cases ht : mapGet legacy.Targets url with
  | none => cases hs : mapGet legacy.SkipVerify url <;> simp
  | some t =>
    have := htok _ (mem_of_mapGet _ _ _ ht)
    cases t with
    | null => cases hs : mapGet legacy.SkipVerify url <;> simp
    | string token => cases hs : mapGet legacy.SkipVerify url <;> simp
    | int n => simp [Iface.isStringOrNull] at this
    | bool b => simp [Iface.isStringOrNull] at this

theorem mapAssign_of_not_mem (k : String) (v : Option Vault) (m : List (String × Option Vault))
    (h : k ∉ m.map Prod.fst) : mapAssign k v m = m ++ [(k, v)] := by
  induction m with
  | nil => rfl
  | cons a m ih =>
    obtain ⟨ka, va⟩ := a
    simp only [List.map_cons, List.mem_cons, not_or] at h
    have hne : ¬ ka = k := fun e => h.1 e.symm
    simp [mapAssign, hne, ih h.2]

theorem convertLoop_of_stringTokens (legacy : oldConfig) (htok : legacy.StringTokens)
    (rest : List (String × String)) (m : List (String × Option Vault))
    (hnd : (m.map Prod.fst ++ rest.map Prod.fst).Nodup) :
    convertLoop legacy rest m =
      .ok (m ++ rest.map fun e => (e.1, some (legacyRecord legacy e.2))) := by
  induction rest generalizing m with
  | nil => simp [convertLoop]
  | cons a rest ih =>
    obtain ⟨ka, u⟩ := a
    have hk : ka ∉ m.map Prod.fst := by
      intro hmem
      have := (List.nodup_append.1 hnd).2.2
      exact this hmem (by simp)
    have hnd' : ((mapAssign ka (some (legacyRecord legacy u)) m).map Prod.fst ++
        rest.map Prod.fst).Nodup := by
      rw [mapAssign_of_not_mem _ _ _ hk]
      simpa [List.append_assoc] using hnd
    simp only [convertLoop, convertEntry_of_stringTokens legacy htok]
    rw [ih _ hnd', mapAssign_of_not_mem _ _ _ hk]
    simp

theorem mapIndex_map_record (g : String → Vault) (l : List (String × String)) (a : String) :
    mapIndex (l.map fun e => (e.1, some (g e.2))) a = (mapGet l a).map fun u => some (g u) := by
  induction l with
  | nil => rfl
  | cons e l ih =>
    obtain ⟨ka, u⟩ := e
    by_cases hk : ka = a <;> simp [mapIndex, mapGet, hk, ih]

/-- C13. Legacy conversion is exact: for a legacy document with string-or-absent tokens
(and, as in any Go map, distinct aliases), convert returns a config with Version 1 and the
Current of the legacy document, whose Vaults map has the aliases of legacy.Aliases as its
keys, one record for each and no nil pointer; the record of an alias a with
legacy.Aliases[a] = u has URL u, SkipVerify legacy.SkipVerify[u] if u is a key there and
false otherwise, and Token legacy.Targets[u] if that is present and a string and ""
otherwise. -/
theorem convert_exact (legacy : oldConfig)
    (hwf : (legacy.Aliases.map Prod.fst).Nodup) (htok : legacy.StringTokens) :
    ∃ c, legacy.convert = .ok c ∧
      c.Version = 1 ∧
      c.Current = legacy.Current ∧
      (∀ a, a ∈ c.entries.map Prod.fst ↔ a ∈ legacy.Aliases.map Prod.fst) ∧
      c.WF ∧
      c.NoNil ∧
      c.entries.length = legacy.Aliases.length ∧
      ∀ a u, mapGet legacy.Aliases a = some u →
        mapIndex c.entries a =
          some (some { URL := u
                       Token :=
                         match mapGet legacy.Targets u with
                         | some (Iface.string token) => token
                         | _ => ""
                       SkipVerify := (mapGet legacy.SkipVerify u).getD false }) := by
  have hloop := convertLoop_of_stringTokens legacy htok legacy.Aliases [] (by simpa using hwf)
  have hkeys : (legacy.Aliases.map fun e => (e.1, some (legacyRecord legacy e.2))).map Prod.fst =
      legacy.Aliases.map Prod.fst := by
    simp [List.map_map, Function.comp_def]
  refine ⟨{ Version := 1, Current := legacy.Current,
            Vaults := some (legacy.Aliases.map fun e => (e.1, some (legacyRecord legacy e.2))) },
    ?_, rfl, rfl, ?_, ?_, ?_, ?_, ?_⟩
  · simp [oldConfig.convert, hloop]
  · intro a
    simp only [Config.entries, Option.getD_some]
    rw [hkeys]
  · simp only [Config.WF, Config.entries, Option.getD_some]
    rw [hkeys]
    exact hwf
  · simp only [Config.NoNil, Config.entries, hasNil, Option.getD_some, List.any_eq_false]
    intro e he
    obtain ⟨x, _, rfl⟩ := List.mem_map.1 he
    simp
  · simp [Config.entries]
  · intro a u hu
    simp only [Config.entries, Option.getD_some]
    rw [mapIndex_map_record, hu]
    rfl

/-- C13 at a legacy document of two aliases. -/
theorem convert_exact_witness :
    (legacyTwo.Aliases.map Prod.fst).Nodup ∧ legacyTwo.StringTokens ∧
      legacyTwo.convert =
        .ok { Version := 1
              Current := "prod"
              Vaults := some
                [ ("prod",
                    some { URL := "https://v.example", Token := "s.prod", SkipVerify := true }),
                  ("dev",
                    some { URL := "https://dev.example", Token := "", SkipVerify := false }) ] } ∧
      ∃ c, legacyTwo.convert = .ok c ∧
        c.Version = 1 ∧
        c.Current = legacyTwo.Current ∧
        (∀ a, a ∈ c.entries.map Prod.fst ↔ a ∈ legacyTwo.Aliases.map Prod.fst) ∧
        c.WF ∧
        c.NoNil ∧
        c.entries.length = legacyTwo.Aliases.length ∧
        ∀ a u, mapGet legacyTwo.Aliases a = some u →
          mapIndex c.entries a =
            some (some { URL := u
                         Token :=
                           match mapGet legacyTwo.Targets u with
                           | some (Iface.string token) => token
                           | _ => ""
                         SkipVerify := (mapGet legacyTwo.SkipVerify u).getD false }) :=
  ⟨by decide, by decide, by decide, convert_exact legacyTwo (by decide) (by decide)⟩

/-- C14, the failing input. On a legacy document whose Targets map holds the integer 42
for the URL of the alias "prod", convert does not return a config: the type assertion
token.(string) panics. -/
theorem convert_non_string_token_panics :
    mapGet legacyIntToken.Aliases "prod" = some "https://v.example" ∧
      mapGet legacyIntToken.Targets "https://v.example" = some (Iface.int 42) ∧
      legacyIntToken.convert = .error Panic.typeAssertion := by
  refine ⟨?_, ?_, ?_⟩ <;> decide

/-- The conversion returns a config exactly when no aliased URL has a token that is
present, not nil and not a string. -/
theorem convert_ok_iff (legacy : oldConfig) :
    (∃ c, legacy.convert = .ok c) ↔
      ∀ e ∈ legacy.Aliases, ∀ t, mapGet legacy.Targets e.2 = some t → t.isStringOrNull = true := by
  have hentry : ∀ url : String, (∃ v, convertEntry legacy url = .ok v) ↔
      ∀ t, mapGet legacy.Targets url = some t → t.isStringOrNull = true := by
    intro url
    unfold convertEntry
    cases ht : mapGet legacy.Targets url with
    | none => simp
    | some t => cases t <;> simp [Iface.isStringOrNull]
  have hloop : ∀ (rest : List (String × String)) (m : List (String × Option Vault)),
      (∃ m', convertLoop legacy rest m = .ok m') ↔
        ∀ e ∈ rest, ∀ t, mapGet legacy.Targets e.2 = some t → t.isStringOrNull = true := by
    intro rest
    induction rest with
    | nil => intro m; simp [convertLoop]
    | cons a rest ih =>
      intro m
      obtain ⟨ka, u⟩ := a
      simp only [convertLoop, List.mem_cons, forall_eq_or_imp]
      rw [← hentry u]
      cases he : convertEntry legacy u with
      | error p => simp
      | ok v => simpa using ih _
  unfold oldConfig.convert
  rw [← hloop legacy.Aliases []]
  cases h : convertLoop legacy legacy.Aliases [] <;> simp

/-! ## Write and Read -/

theorem Write_saferc {Bytes : Type} (codec : Codec Bytes) (c : Config) (fs : Files Bytes)
    (b : Bytes) (hm : codec.marshalConfig c = .ok b) (hw : File.saferc ∉ fs.denied) :
    (c.Write codec fs).1.saferc = some b := by
  unfold Config.Write
  simp only [hm, Files.WriteFile, hw, if_false]
  rcases c.Vault "" with p | ⟨_ | ⟨k, v⟩, _ | err⟩
  · rfl
  · simp only [Files.Remove]
    split <;> rfl
  · rfl
  · simp only
    split
    · rfl
    · split
      · rfl
      · rename_i h
        split at h
        · simp at h
        · simp only [Except.ok.injEq] at h
          rw [← h]
  · rfl

/-- Write when both files can be written. -/
theorem Write_of_writable {Bytes : Type} (codec : Codec Bytes) (c : Config) (fs : Files Bytes)
    (hw : fs.denied = []) :
    c.Write codec fs =
      match codec.marshalConfig c with
      | .error err => (fs, .ok (some err))
      | .ok b =>
        match c.Vault "" with
        | .error p => ({ fs with saferc := some b }, .error p)
        | .ok (_, some err) => ({ fs with saferc := some b }, .ok (some err))
        | .ok (none, none) => ({ fs with saferc := some b, svtoken := none }, .ok none)
        | .ok (some (_, v), none) =>
          match codec.marshalSession
              { Vault := v.URL, Token := v.Token, SkipVerify := v.SkipVerify } with
          | .error err => ({ fs with saferc := some b }, .ok (some err))
          | .ok b' => ({ fs with saferc := some b, svtoken := some b' }, .ok none) := by
  unfold Config.Write
  cases hm : codec.marshalConfig c with
  | error err => rfl
  | ok b =>
    simp only [Files.WriteFile, hw, List.not_mem_nil, if_false]
    rcases c.Vault "" with p | ⟨_ | ⟨k, v⟩, _ | err⟩
    · rfl
    · simp [Files.Remove, hw]
    · rfl
    · rfl
    · rfl

/-- C15, as stated, fails when Current names no record: Write on the store storeGone
writes the primary file, returns the error of Vault(""), and leaves in the session file the
projection of the earlier target, although the config has no target of that URL. -/
theorem Write_keeps_stale_session :
    filesOld.denied = [] ∧
      storeGone.Write docCodec filesOld =
        ({ saferc := some (Doc.config storeGone)
           svtoken := some (Doc.session
             { Vault := "https://old.example", Token := "old", SkipVerify := false })
           denied := [] },
          .ok (some (Error.notFound "gone"))) ∧
      storeGone.Current ≠ "" ∧
      ∀ e ∈ storeGone.entries, ∀ v, e.2 = some v → v.URL ≠ "https://old.example" := by
  refine ⟨rfl, ?_, ?_, ?_⟩ <;> decide

/-- C15, amended. With both files writable, whenever Write returns a nil error the primary
file holds the marshalled document, and the session file is absent when Vault("") returns
no record (so when Current is empty) and otherwise holds exactly the marshalled projection
(URL, Token, SkipVerify) of the record that Vault("") resolves, which on a map with no nil
record it does for every non-empty Current; and Write returns a nil error exactly when the
document marshals, Vault("") returns no error and the projection of its record, if any,
marshals. -/
theorem Write_session_lockstep {Bytes : Type} (codec : Codec Bytes) (c : Config)
    (fs : Files Bytes) (hw : fs.denied = []) :
    ((c.Write codec fs).2 = .ok none ↔
        (∃ b, codec.marshalConfig c = .ok b) ∧
          ∃ v, c.Vault "" = .ok (v, none) ∧
            ∀ k r, v = some (k, r) →
              ∃ b', codec.marshalSession
                { Vault := r.URL, Token := r.Token, SkipVerify := r.SkipVerify } = .ok b') ∧
      ((c.Write codec fs).2 = .ok none →
        (∃ b, codec.marshalConfig c = .ok b ∧ (c.Write codec fs).1.saferc = some b) ∧
          (c.Current = "" → (c.Write codec fs).1.svtoken = none) ∧
          (c.Vault "" = .ok (none, none) → (c.Write codec fs).1.svtoken = none) ∧
          (∀ k v, c.Vault "" = .ok (some (k, v), none) →
            ∃ b', codec.marshalSession
                { Vault := v.URL, Token := v.Token, SkipVerify := v.SkipVerify } = .ok b' ∧
              (c.Write codec fs).1.svtoken = some b') ∧
          (c.NoNil → c.Current ≠ "" →
            ∃ k v b', c.Vault "" = .ok (some (k, v), none) ∧
              codec.marshalSession
                { Vault := v.URL, Token := v.Token, SkipVerify := v.SkipVerify } = .ok b' ∧
              (c.Write codec fs).1.svtoken = some b')) := by
  have hcur := Vault_current_eq_none_iff c
  rw [Write_of_writable codec c fs hw]
  cases hm : codec.marshalConfig c with
  | error err => simp
  | ok b =>
    rcases hV : c.Vault "" with p | ⟨_ | ⟨k, v⟩, _ | err⟩
    · simp
    · rw [hV] at hcur
      have hcase := hcur.1 rfl
      refine ⟨by simp, fun _ => ⟨⟨b, rfl, rfl⟩, fun _ => rfl, fun _ => rfl, ?_, ?_⟩⟩
      · intro k v h
        simp at h
      · intro hnn hne
        rcases hcase with h | h
        · exact absurd h hne
        · obtain ⟨v, hv⟩ := mapIndex_some_of_noNil c _ _ hnn h
          cases hv
    · simp
    · rw [hV] at hcur
      have hne : c.Current ≠ "" := fun h => by simpa using hcur.2 (Or.inl h)
      cases hs : codec.marshalSession
        { Vault := v.URL, Token := v.Token, SkipVerify := v.SkipVerify } with
      | error err =>
        refine ⟨?_, by simp [hs]⟩
        simp only [hs]
        constructor
        · intro h
          simp at h
        · rintro ⟨_, v', hv', hall⟩
          simp only [Except.ok.injEq, Prod.mk.injEq, and_true] at hv'
          obtain ⟨b', hb'⟩ := hall k v hv'.symm
          rw [hs] at hb'
          cases hb'
      | ok b' =>
        simp only [hs]
        refine ⟨⟨fun _ => ⟨⟨b, rfl⟩, some (k, v), rfl, ?_⟩, fun _ => trivial⟩,
          fun _ => ⟨⟨b, rfl, rfl⟩, fun h => absurd h hne, fun h => by simp at h, ?_,
            fun _ _ => ⟨k, v, b', rfl, hs, rfl⟩⟩⟩
        · intro k1 r1 h
          simp only [Option.some.injEq, Prod.mk.injEq] at h
          obtain ⟨rfl, rfl⟩ := h
          exact ⟨b', hs⟩
        · intro k1 v1 h
          simp only [Except.ok.injEq, Prod.mk.injEq, Option.some.injEq, and_true] at h
          obtain ⟨rfl, rfl⟩ := h
          exact ⟨b', hs, rfl⟩
    · simp

/-- C15, amended, at the store of three records and the files of an earlier target: Write
returns a nil error and replaces the stale session by the projection of "prod". -/
theorem Write_session_lockstep_witness :
    filesOld.denied = [] ∧ (storeShadowed.Write docCodec filesOld).2 = .ok none ∧
      (storeShadowed.Write docCodec filesOld).1.saferc = some (Doc.config storeShadowed) ∧
      (storeShadowed.Write docCodec filesOld).1.svtoken =
        some (Doc.session { Vault := "https://v.example/", Token := "p", SkipVerify := false }) ∧
      ((∃ b, docCodec.marshalConfig storeShadowed = .ok b ∧
            (storeShadowed.Write docCodec filesOld).1.saferc = some b) ∧
        (storeShadowed.Current = "" → (storeShadowed.Write docCodec filesOld).1.svtoken = none) ∧
        (storeShadowed.Vault "" = .ok (none, none) →
          (storeShadowed.Write docCodec filesOld).1.svtoken = none) ∧
        (∀ k v, storeShadowed.Vault "" = .ok (some (k, v), none) →
          ∃ b', docCodec.marshalSession
              { Vault := v.URL, Token := v.Token, SkipVerify := v.SkipVerify } = .ok b' ∧
            (storeShadowed.Write docCodec filesOld).1.svtoken = some b') ∧
        (storeShadowed.NoNil → storeShadowed.Current ≠ "" →
          ∃ k v b', storeShadowed.Vault "" = .ok (some (k, v), none) ∧
            docCodec.marshalSession
              { Vault := v.URL, Token := v.Token, SkipVerify := v.SkipVerify } = .ok b' ∧
            (storeShadowed.Write docCodec filesOld).1.svtoken = some b')) :=
  ⟨rfl, by decide, by decide, by decide,
    (Write_session_lockstep docCodec storeShadowed filesOld rfl).2 (by decide)⟩

theorem docCodec_inverts : docCodec.Inverts :=
  fun c => ⟨Doc.config c, c, rfl, rfl, rfl, rfl, fun _ => rfl⟩

/-- C16, as stated, fails for a document whose Version is 0: with a codec whose unmarshal
inverts marshal and files that can be written, Write on the store storeVersionZero
followed by Read takes the document just written for a legacy one and returns the empty
converted document, whose Current is not "prod" and which has no alias "prod". -/
theorem Write_Read_version_zero :
    docCodec.Inverts ∧ filesOld.denied = [] ∧
      (storeVersionZero.Write docCodec filesOld).2 = .ok none ∧
      Read docCodec (storeVersionZero.Write docCodec filesOld).1 =
        .ok { Version := 1, Current := "", Vaults := some [] } ∧
      ¬ Config.Equiv { Version := 1, Current := "", Vaults := some [] } storeVersionZero := by
  refine ⟨docCodec_inverts, rfl, by decide, by decide, ?_⟩
  intro h
  exact absurd h.1 (by decide)

/-- C16, amended. With a codec whose unmarshal inverts marshal and a primary file that can
be written, for every document c whose Version is not 0, Write on c followed by Read
returns a document equivalent to c: the same Current, the same set of aliases, each with
equal URL, Token and SkipVerify. -/
theorem Write_Read_round_trip {Bytes : Type} (codec : Codec Bytes) (c : Config)
    (fs : Files Bytes) (hinv : codec.Inverts) (hw : File.saferc ∉ fs.denied)
    (hv : c.Version ≠ 0) :
    ∃ c', Read codec (c.Write codec fs).1 = .ok c' ∧ c'.Equiv c := by
  obtain ⟨b, c', hm, hu, hver, heq⟩ := hinv c
  refine ⟨c', ?_, heq⟩
  have hv' : ¬ c'.Version = 0 := by rw [hver]; exact hv
  simp [Read, Write_saferc codec c fs b hm hw, hu, hv']

/-- C16, amended, at the store of the two twins: the round trip returns the store even
though Write itself returns the ambiguity error of Vault(""). -/
theorem Write_Read_round_trip_witness :
    docCodec.Inverts ∧ File.saferc ∉ filesOld.denied ∧ storeTwins.Version ≠ 0 ∧
      (storeTwins.Write docCodec filesOld).2 =
        .ok (some (Error.moreThanOne "https://v.example")) ∧
      Read docCodec (storeTwins.Write docCodec filesOld).1 = .ok storeTwins ∧
      ∃ c', Read docCodec (storeTwins.Write docCodec filesOld).1 = .ok c' ∧
        c'.Equiv storeTwins :=
  ⟨docCodec_inverts, by decide, by decide, by decide, by decide,
    Write_Read_round_trip docCodec storeTwins filesOld docCodec_inverts (by decide) (by decide)⟩

/-! ## Apply -/

theorem mapGet_mapPut_self {β : Type} (k : String) (v : β) (l : List (String × β)) :
    mapGet (mapPut k v l) k = some v := by
  induction l with
  | nil => simp [mapPut, mapGet]
  | cons a l ih =>
    obtain ⟨ka, va⟩ := a
    by_cases h : ka = k <;> simp [mapPut, mapGet, h, ih]

theorem mapGet_mapPut_ne {β : Type} (k k' : String) (v : β) (l : List (String × β))
    (hne : k' ≠ k) : mapGet (mapPut k v l) k' = mapGet l k' := by
  induction l with
  | nil => simp [mapPut, mapGet, Ne.symm hne]
  | cons a l ih =>
    obtain ⟨ka, va⟩ := a
    by_cases h : ka = k
    · have h' : ¬ ka = k' := fun e => hne (e.symm.trans h)
      simp [mapPut, mapGet, h, h', Ne.symm hne]
    · by_cases h' : ka = k'
      · subst h'
        simp [mapPut, mapGet, h]
      · simp [mapPut, mapGet, h, h', ih]

/-- A variable other than the one set is as it was, whether os.Setenv succeeds or not. -/
theorem Setenv_get_ne (p : Process) (key value name : String) (hne : name ≠ key) :
    mapGet (p.Setenv key value).1.env name = mapGet p.env name := by
  unfold Process.Setenv
  split
  · rfl
  · exact mapGet_mapPut_ne _ _ _ _ hne

/-- The variable set holds the value when the key is well formed and the value has no NUL
byte. -/
theorem Setenv_get_self (p : Process) (key value : String) (h1 : key ≠ "")
    (h2 : (key.data.any fun ch => ch.toNat = 61 ∨ ch.toNat = 0) = false)
    (h3 : hasNUL value = false) :
    mapGet (p.Setenv key value).1.env key = some value := by
  unfold Process.Setenv
  simp only [h1, h2, h3, Bool.false_eq_true, or_self, if_false]
  exact mapGet_mapPut_self _ _ _

theorem Setenv_vaultToken (p : Process) (key value : String) :
    (p.Setenv key value).1.vaultToken = p.vaultToken := by
  unfold Process.Setenv
  split <;> rfl

/-- C17, as stated, fails for a record whose Token holds a NUL byte: on the store
storeNulToken Vault("") returns the record of "prod", os.Setenv rejects its token, Apply
drops the error, and VAULT_TOKEN keeps the value it had. -/
theorem Apply_nul_token_not_exported :
    storeNulToken.Vault "" =
        .ok (some ("prod",
          { URL := "https://v.example/", Token := "s.\x00tok", SkipVerify := false }), none) ∧
      storeNulToken.Apply "" processBusy =
        .ok (storeNulToken,
          { env := [("HOME", "/home/u"), ("VAULT_TOKEN", "s.ambient"),
                    ("VAULT_SKIP_VERIFY", "yes"), ("VAULT_ADDR", "https://v.example/")]
            vaultToken := some "s.fallback" },
          none) ∧
      mapGet processBusy.env "VAULT_TOKEN" = some "s.ambient" := by
  refine ⟨?_, ?_, ?_⟩ <;> decide

/-- C17, amended. Apply exports the resolved target: whenever Vault(use) returns a record
v, Apply returns a nil error and leaves an environment with VAULT_ADDR = v.URL when v.URL
holds no NUL byte and VAULT_TOKEN = v.Token when v.Token holds no NUL byte, with
VAULT_SKIP_VERIFY = "1" when v.SkipVerify is true and VAULT_SKIP_VERIFY as it was when
v.SkipVerify is false, and every other variable as it was; the config (and the fallback
token file) is as it was. -/
theorem Apply_exports_target (c : Config) (use : String) (p : Process) (k : String)
    (v : Vault) (hV : c.Vault use = .ok (some (k, v), none)) :
    ∃ p', c.Apply use p = .ok (c, p', none) ∧
      (hasNUL v.URL = false → mapGet p'.env "VAULT_ADDR" = some v.URL) ∧
      (hasNUL v.Token = false → mapGet p'.env "VAULT_TOKEN" = some v.Token) ∧
      (v.SkipVerify = true → mapGet p'.env "VAULT_SKIP_VERIFY" = some "1") ∧
      (v.SkipVerify = false →
        mapGet p'.env "VAULT_SKIP_VERIFY" = mapGet p.env "VAULT_SKIP_VERIFY") ∧
      (∀ name, name ≠ "VAULT_ADDR" → name ≠ "VAULT_TOKEN" → name ≠ "VAULT_SKIP_VERIFY" →
        mapGet p'.env name = mapGet p.env name) ∧
      p'.vaultToken = p.vaultToken := by
  have h1 : ("VAULT_ADDR" : String) ≠ "VAULT_TOKEN" := by decide
  have h2 : ("VAULT_ADDR" : String) ≠ "VAULT_SKIP_VERIFY" := by decide
  have h3 : ("VAULT_TOKEN" : String) ≠ "VAULT_SKIP_VERIFY" := by decide
  have h4 : ("VAULT_SKIP_VERIFY" : String) ≠ "VAULT_TOKEN" := by decide
  have h5 : ("VAULT_SKIP_VERIFY" : String) ≠ "VAULT_ADDR" := by decide
  cases hs : v.SkipVerify with
  | false =>
    refine ⟨((p.Setenv "VAULT_ADDR" v.URL).1.Setenv "VAULT_TOKEN" v.Token).1,
      ?_, ?_, ?_, ?_, ?_, ?_, ?_⟩
    · simp [Config.Apply, hV, hs]
    · intro hU
      rw [Setenv_get_ne _ _ _ _ h1]
      exact Setenv_get_self _ _ _ (by decide) (by decide) hU
    · intro hT
      exact Setenv_get_self _ _ _ (by decide) (by decide) hT
    · intro h; cases h
    · intro _
      rw [Setenv_get_ne _ _ _ _ h4, Setenv_get_ne _ _ _ _ h5]
    · intro name n1 n2 _
      rw [Setenv_get_ne _ _ _ _ n2, Setenv_get_ne _ _ _ _ n1]
    · rw [Setenv_vaultToken, Setenv_vaultToken]
  | true =>
    refine ⟨(((p.Setenv "VAULT_ADDR" v.URL).1.Setenv "VAULT_TOKEN" v.Token).1.Setenv
      "VAULT_SKIP_VERIFY" "1").1, ?_, ?_, ?_, ?_, ?_, ?_, ?_⟩
    · simp [Config.Apply, hV, hs]
    · intro hU
      rw [Setenv_get_ne _ _ _ _ h2, Setenv_get_ne _ _ _ _ h1]
      exact Setenv_get_self _ _ _ (by decide) (by decide) hU
    · intro hT
      rw [Setenv_get_ne _ _ _ _ h3]
      exact Setenv_get_self _ _ _ (by decide) (by decide) hT
    · intro _
      exact Setenv_get_self _ _ _ (by decide) (by decide) (by decide)
    · intro h; cases h
    · intro name n1 n2 n3
      rw [Setenv_get_ne _ _ _ _ n3, Setenv_get_ne _ _ _ _ n2, Setenv_get_ne _ _ _ _ n1]
    · rw [Setenv_vaultToken, Setenv_vaultToken, Setenv_vaultToken]

/-- C17, amended, at the store of three records and a process that already has a token
and a skip flag: the record of "prod" does not skip verification, so the flag stays as it
was. -/
theorem Apply_exports_target_witness :
    storeShadowed.Vault "" =
        .ok (some ("prod", { URL := "https://v.example/", Token := "p", SkipVerify := false }),
          none) ∧
      storeShadowed.Apply "" processBusy =
        .ok (storeShadowed,
          { env := [("HOME", "/home/u"), ("VAULT_TOKEN", "p"), ("VAULT_SKIP_VERIFY", "yes"),
                    ("VAULT_ADDR", "https://v.example/")]
            vaultToken := some "s.fallback" },
          none) ∧
      ∃ p', storeShadowed.Apply "" processBusy = .ok (storeShadowed, p', none) ∧
        (hasNUL "https://v.example/" = false →
          mapGet p'.env "VAULT_ADDR" = some "https://v.example/") ∧
        (hasNUL "p" = false → mapGet p'.env "VAULT_TOKEN" = some "p") ∧
        (false = true → mapGet p'.env "VAULT_SKIP_VERIFY" = some "1") ∧
        (false = false →
          mapGet p'.env "VAULT_SKIP_VERIFY" = mapGet processBusy.env "VAULT_SKIP_VERIFY") ∧
        (∀ name, name ≠ "VAULT_ADDR" → name ≠ "VAULT_TOKEN" → name ≠ "VAULT_SKIP_VERIFY" →
          mapGet p'.env name = mapGet processBusy.env name) ∧
        p'.vaultToken = processBusy.vaultToken :=
  ⟨by decide, by decide,
    Apply_exports_target storeShadowed "" processBusy "prod"
      { URL := "https://v.example/", Token := "p", SkipVerify := false } (by decide)⟩

/-- C18, as stated, fails for a fallback file that holds a NUL byte: with Current empty,
VAULT_TOKEN unset and a readable file, os.Setenv rejects the trimmed content, Apply drops
the error, and VAULT_TOKEN stays unset. -/
theorem Apply_nul_fallback_not_exported :
    storeProd.Current = "" ∧
      processNulFile.Getenv "VAULT_TOKEN" = "" ∧
      processNulFile.vaultToken = some "s.\x00tok\n" ∧
      TrimSpace "s.\x00tok\n" = "s.\x00tok" ∧
      storeProd.Apply "" processNulFile = .ok (storeProd, processNulFile, none) ∧
      mapGet processNulFile.env "VAULT_TOKEN" = none := by
  refine ⟨rfl, ?_, rfl, ?_, ?_, ?_⟩ <;> decide

/-- C18, amended. Apply fallback token: for a config with Current empty, Apply("") returns
a nil error in each of these cases; when VAULT_TOKEN is unset or empty and the fallback
token file is readable, with a trimmed content that holds no NUL byte, it sets VAULT_TOKEN
to that trimmed content and changes no other variable (VAULT_ADDR and VAULT_SKIP_VERIFY
included); when the file is absent, and when VAULT_TOKEN is already non-empty, it leaves
the whole environment as it was. -/
theorem Apply_fallback_token (c : Config) (p : Process) (hc : c.Current = "") :
    (∀ b, p.Getenv "VAULT_TOKEN" = "" → p.vaultToken = some b →
        ∃ p', c.Apply "" p = .ok (c, p', none) ∧
          (hasNUL (TrimSpace b) = false → mapGet p'.env "VAULT_TOKEN" = some (TrimSpace b)) ∧
          mapGet p'.env "VAULT_ADDR" = mapGet p.env "VAULT_ADDR" ∧
          mapGet p'.env "VAULT_SKIP_VERIFY" = mapGet p.env "VAULT_SKIP_VERIFY" ∧
          ∀ name, name ≠ "VAULT_TOKEN" → mapGet p'.env name = mapGet p.env name) ∧
      (p.vaultToken = none → c.Apply "" p = .ok (c, p, none)) ∧
      (p.Getenv "VAULT_TOKEN" ≠ "" → c.Apply "" p = .ok (c, p, none)) := by
  have hV : c.Vault "" = .ok (none, none) := by simp [Config.Vault, hc]
  refine ⟨?_, ?_, ?_⟩
  · intro b hg hf
    refine ⟨(p.Setenv "VAULT_TOKEN" (TrimSpace b)).1, ?_, ?_, ?_, ?_, ?_⟩
    · simp [Config.Apply, hV, hg, hf]
    · intro hN
      exact Setenv_get_self _ _ _ (by decide) (by decide) hN
    · exact Setenv_get_ne _ _ _ _ (by decide)
    · exact Setenv_get_ne _ _ _ _ (by decide)
    · intro name hn
      exact Setenv_get_ne _ _ _ _ hn
  · intro hf
    by_cases hg : p.Getenv "VAULT_TOKEN" = "" <;> simp [Config.Apply, hV, hg, hf]
  · intro hg
    simp [Config.Apply, hV, hg]

/-- C18, amended, at the store of the single alias "prod", which has no target selected: a
fresh process gets the trimmed fallback token, and a process with a token is left as it
was. -/
theorem Apply_fallback_token_witness :
    storeProd.Current = "" ∧
      hasNUL (TrimSpace "  s.fallback\n") = false ∧
      storeProd.Apply "" processFresh =
        .ok (storeProd,
          { env := [("HOME", "/home/u"), ("VAULT_TOKEN", "s.fallback")]
            vaultToken := some "  s.fallback\n" },
          none) ∧
      storeProd.Apply "" processBusy = .ok (storeProd, processBusy, none) :=
  ⟨rfl, by decide, by decide, (Apply_fallback_token storeProd processBusy rfl).2.2 (by decide)⟩

/-! ## The reachable-state invariant -/

theorem filterMap_url_length_mapStore (want k : String) (f : Vault → Vault)
    (hf : ∀ v, (f v).URL = v.URL) (l : List (String × Option Vault)) :
    ((mapStore k f l).filterMap (urlMatch want)).length =
      (l.filterMap (urlMatch want)).length := by
  induction l with
  | nil => rfl
  | cons a l ih =>
    obtain ⟨ka, va⟩ := a
    by_cases hk : ka = k
    · cases va with
      | none => simp [mapStore, hk, List.filterMap_cons, urlMatch]
      | some v =>
        by_cases hu : TrimSuffix v.URL "/" = want <;>
          simp [mapStore, hk, List.filterMap_cons, urlMatch, hf, hu]
    · cases hm : urlMatch want (ka, va) <;>
        simp [mapStore, hk, List.filterMap_cons, hm, ih]

/-- A store through a pointer that keeps the URL keeps every lookup that resolves. -/
theorem Find_found_of_mapStore (c c2 : Config) (k : String) (f : Vault → Vault)
    (hf : ∀ v, (f v).URL = v.URL) (he : c2.entries = mapStore k f c.entries) (s : String)
    (h : ∃ p, c.Find s = .ok (some p, true, none)) :
    ∃ p, c2.Find s = .ok (some p, true, none) := by
  obtain ⟨p, hp⟩ := h
  rcases Find_cases c s with ⟨r, hk, hF⟩ | ⟨_, _, hF⟩ | ⟨_, _, _, hF⟩ | ⟨e, hk, hn, hm, _⟩ |
    ⟨_, _, _, hF⟩
  · rw [hF] at hp
    cases r with
    | none => simp at hp
    | some v =>
      have hk2 : mapIndex c2.entries s = some (some (if s = k then f v else v)) := by
        rw [he, mapIndex_mapStore, hk]
        by_cases h : s = k <;> simp [h]
      exact ⟨_, Find_of_key c2 s _ hk2⟩
  · rw [hF] at hp
    simp at hp
  · rw [hF] at hp
    simp at hp
  · have hk2 : mapIndex c2.entries s = none := by
      rw [he, mapIndex_mapStore, hk]
      simp
    have hn2 : c2.NoNil := by
      unfold Config.NoNil
      rw [he, hasNil_mapStore]
      exact hn
    have hlen : (c2.urlMatches s).length = 1 := by
      unfold Config.urlMatches
      rw [he, filterMap_url_length_mapStore _ _ _ hf]
      have := congrArg List.length hm
      simpa [Config.urlMatches] using this
    rcases hcm : c2.urlMatches s with _ | ⟨e', _ | ⟨e'', m⟩⟩
    · simp [hcm] at hlen
    · exact ⟨e', Find_of_one c2 s e' hk2 hn2 hcm⟩
    · simp [hcm] at hlen
  · rw [hF] at hp
    simp at hp

/-- SetCurrent on a map with no nil record returns, and what it returns. -/
theorem SetCurrent_returns (c : Config) (alias_ : String) (reskip : Bool) (hnn : c.NoNil) :
    (∃ err, c.SetCurrent alias_ reskip = .ok (c, some err)) ∨
      ∃ k r, c.Find alias_ = .ok (some (k, r), true, none) ∧
        c.SetCurrent alias_ reskip =
          .ok ({ c with
                  Current := alias_
                  Vaults := c.Vaults.map
                    (mapStore k fun v =>
                      { v with SkipVerify := if reskip then true else v.SkipVerify }) },
                none) := by
  have hnn' : hasNil c.entries = false := hnn
  rcases Find_cases c alias_ with ⟨r, hk, hF⟩ | ⟨_, hn, _⟩ | ⟨_, _, _, hF⟩ |
    ⟨⟨k, r⟩, _, _, _, hF⟩ | ⟨_, _, _, hF⟩
  · obtain ⟨v, rfl⟩ := mapIndex_some_of_noNil c alias_ r hnn hk
    exact Or.inr ⟨alias_, v, hF, SetCurrent_of_found c alias_ reskip alias_ v hF⟩
  · rw [hnn'] at hn
    cases hn
  · exact Or.inl ⟨Error.unknownTarget alias_, by simp [Config.SetCurrent, hF]⟩
  · exact Or.inr ⟨k, r, hF, SetCurrent_of_found c alias_ reskip k r hF⟩
  · exact Or.inl ⟨Error.moreThanOne alias_, by simp [Config.SetCurrent, hF]⟩

/-- SetToken on a state where Current is empty or resolves returns, and what it returns. -/
theorem SetToken_returns (c : Config) (token : String)
    (h : c.Current = "" ∨ ∃ p, c.Find c.Current = .ok (some p, true, none)) :
    (∃ err, c.SetToken token = .ok (c, some err)) ∨
      ∃ k r, c.Find c.Current = .ok (some (k, r), true, none) ∧
        c.SetToken token =
          .ok ({ c with
                  Current := c.Current
                  Vaults := c.Vaults.map (mapStore k fun v => { v with Token := token }) },
                none) := by
  by_cases hc : c.Current = ""
  · exact Or.inl ⟨Error.noTargetSelected, by simp [Config.SetToken, hc]⟩
  · rcases h with h | ⟨⟨k, r⟩, hF⟩
    · exact absurd h hc
    · exact Or.inr ⟨k, r, hF, by simp [Config.SetToken, hc, hF]⟩

theorem NoNil_store (c : Config) (cur k : String) (f : Vault → Vault) (hnn : c.NoNil) :
    Config.NoNil { c with Current := cur, Vaults := c.Vaults.map (mapStore k f) } := by
  unfold Config.NoNil
  rw [entries_mapStore, hasNil_mapStore]
  exact hnn

theorem NoNil_SetTarget (c : Config) (alias_ url : String) (skipverify : Bool)
    (hnn : c.NoNil) : (c.SetTarget alias_ url skipverify).1.NoNil := by
  unfold Config.NoNil
  rw [entries_SetTarget]
  exact hasNil_mapAssign _ _ _ hnn

theorem Settled_SetCurrent (c c' : Config) (alias_ : String) (reskip : Bool)
    (err : Option Error) (hs : c.Settled) (h : c.SetCurrent alias_ reskip = .ok (c', err)) :
    c'.Settled := by
  rcases SetCurrent_returns c alias_ reskip hs.1 with ⟨e, he⟩ | ⟨k, r, hF, he⟩
  · rw [he] at h
    simp only [Except.ok.injEq, Prod.mk.injEq] at h
    rw [← h.1]
    exact hs
  · rw [he] at h
    simp only [Except.ok.injEq, Prod.mk.injEq] at h
    rw [← h.1]
    exact ⟨NoNil_store c alias_ k _ hs.1,
      Or.inr (Find_found_of_mapStore c _ k
        (fun v => { v with SkipVerify := if reskip then true else v.SkipVerify }) (fun _ => rfl)
        (entries_mapStore c alias_ k _) alias_ ⟨(k, r), hF⟩)⟩

theorem Settled_SetTarget (c : Config) (alias_ url : String) (skipverify : Bool)
    (hs : c.Settled) : (c.SetTarget alias_ url skipverify).1.Settled :=
  ⟨NoNil_SetTarget c alias_ url skipverify hs.1, Or.inr ⟨_, Find_SetTarget c alias_ url skipverify⟩⟩

theorem Settled_SetToken (c c' : Config) (token : String) (err : Option Error)
    (hs : c.Settled) (h : c.SetToken token = .ok (c', err)) : c'.Settled := by
  have hres : c.Current = "" ∨ ∃ p, c.Find c.Current = .ok (some p, true, none) :=
    hs.2.elim (fun h => Or.inl h.1) Or.inr
  rcases SetToken_returns c token hres with ⟨e, he⟩ | ⟨k, r, hF, he⟩
  · rw [he] at h
    simp only [Except.ok.injEq, Prod.mk.injEq] at h
    rw [← h.1]
    exact hs
  · rw [he] at h
    simp only [Except.ok.injEq, Prod.mk.injEq] at h
    rw [← h.1]
    exact ⟨NoNil_store c c.Current k _ hs.1,
      Or.inr (Find_found_of_mapStore c _ k (fun v => { v with Token := token })
        (fun _ => rfl) (entries_mapStore c c.Current k _) c.Current ⟨(k, r), hF⟩)⟩

theorem Settled_of_Reachable (c : Config) (h : Reachable c) : c.Settled := by
  induction h with
  | start => exact ⟨rfl, Or.inl ⟨rfl, rfl⟩⟩
  | setCurrent c c' a r e _ hstep ih => exact Settled_SetCurrent c c' a r e ih hstep
  | setTarget c a u sk _ ih => exact Settled_SetTarget c a u sk ih
  | setToken c c' t e _ hstep ih => exact Settled_SetToken c c' t e ih hstep

/-- C19, as stated, fails on a map that holds a nil record: the store whose only alias "n"
holds a nil pointer, with no target selected, satisfies the predicate; SetCurrent("n",
false) succeeds and leaves a state that does not, since Find(Current) now returns the nil
pointer; and SetCurrent("missing", false) panics in the loop of Find. -/
theorem Resolved_not_kept_with_nil_record :
    storeNullOnly.Resolved ∧
      storeNullOnly.SetCurrent "n" false =
        .ok ({ Version := 1, Current := "n", Vaults := some [("n", none)] }, none) ∧
      ¬ Config.Resolved { Version := 1, Current := "n", Vaults := some [("n", none)] } ∧
      storeNullOnly.SetCurrent "missing" false = .error Panic.nilDereference := by
  refine ⟨Or.inl rfl, by decide, ?_, by decide⟩
  rintro (h | ⟨p, hp⟩)
  · exact absurd h (by decide)
  · have hF : Config.Find { Version := 1, Current := "n", Vaults := some [("n", none)] } "n" =
        .ok (none, true, none) := by decide
    have hp' : Config.Find { Version := 1, Current := "n", Vaults := some [("n", none)] } "n" =
        .ok (some p, true, none) := hp
    rw [hF] at hp'
    simp at hp'

/-- C19, amended. Reachable-state invariant: the predicate "Current is empty, or
Find(Current) returns a record with found = true and a nil error" holds for the default
document; it is kept by SetTarget and SetToken, whether they return an error or not, from
any state that satisfies it, and by SetCurrent from any such state whose map holds no nil
record (a property the three mutators keep), and none of the three panics there; so in
every state reachable from the default document the predicate holds, the map holds no nil
record, Find(Current) never returns the ambiguity error, a non-empty Current resolves to a
record, and SetToken, URL() and Verified() return without a panic. -/
theorem Resolved_invariant :
    Config.Resolved { Version := 1, Current := "", Vaults := none } ∧
      (∀ (c : Config) (alias_ : String) (reskip : Bool), c.NoNil → c.Resolved →
        ∃ c' err, c.SetCurrent alias_ reskip = .ok (c', err) ∧ c'.Resolved ∧ c'.NoNil) ∧
      (∀ (c : Config) (alias_ url : String) (skipverify : Bool), c.Resolved →
        (c.SetTarget alias_ url skipverify).1.Resolved ∧
          (c.NoNil → (c.SetTarget alias_ url skipverify).1.NoNil)) ∧
      (∀ (c : Config) (token : String), c.Resolved →
        ∃ c' err, c.SetToken token = .ok (c', err) ∧ c'.Resolved ∧ (c.NoNil → c'.NoNil)) ∧
      (∀ c : Config, Reachable c →
        c.Resolved ∧
          c.NoNil ∧
          (∃ r, c.Find c.Current = .ok r ∧ r.2.2 = none) ∧
          (c.Current ≠ "" → ∃ p, c.Find c.Current = .ok (some p, true, none)) ∧
          (∀ token, ∃ c' err, c.SetToken token = .ok (c', err)) ∧
          (∃ u, c.URL = .ok u) ∧
          (∃ b, c.Verified = .ok b)) := by
  refine ⟨Or.inl rfl, ?_, ?_, ?_, ?_⟩
  · intro c alias_ reskip hnn hr
    rcases SetCurrent_returns c alias_ reskip hnn with ⟨e, he⟩ | ⟨k, r, hF, he⟩
    · exact ⟨c, some e, he, hr, hnn⟩
    · exact ⟨_, none, he, Or.inr (Find_found_of_mapStore c _ k
        (fun v => { v with SkipVerify := if reskip then true else v.SkipVerify })
        (fun _ => rfl) (entries_mapStore c alias_ k _) alias_ ⟨(k, r), hF⟩),
        NoNil_store c alias_ k _ hnn⟩
  · intro c alias_ url skipverify _
    exact ⟨Or.inr ⟨_, Find_SetTarget c alias_ url skipverify⟩,
      NoNil_SetTarget c alias_ url skipverify⟩
  · intro c token hr
    rcases SetToken_returns c token hr with ⟨e, he⟩ | ⟨k, r, hF, he⟩
    · exact ⟨c, some e, he, hr, id⟩
    · exact ⟨_, none, he, Or.inr (Find_found_of_mapStore c _ k (fun v => { v with Token := token })
        (fun _ => rfl) (entries_mapStore c c.Current k _) c.Current ⟨(k, r), hF⟩),
        NoNil_store c c.Current k _⟩
  · intro c hreach
    have hs := Settled_of_Reachable c hreach
    have hres : c.Resolved := hs.2.elim (fun h => Or.inl h.1) Or.inr
    have hfind : (∃ p, c.Find c.Current = .ok (some p, true, none)) ∨
        c.Find c.Current = .ok (none, false, none) := by
      rcases hs.2 with ⟨_, hnil⟩ | h
      · exact Or.inr (Find_of_no_match c c.Current (by simp [hnil, mapIndex]) hs.1
          (by simp [Config.urlMatches, hnil]))
      · exact Or.inl h
    refine ⟨hres, hs.1, ?_, ?_, ?_, ?_, ?_⟩
    · rcases hfind with ⟨p, hp⟩ | hp
      · exact ⟨_, hp, rfl⟩
      · exact ⟨_, hp, rfl⟩
    · intro hne
      rcases hs.2 with ⟨h, _⟩ | h
      · exact absurd h hne
      · exact h
    · intro token
      rcases SetToken_returns c token hres with ⟨e, he⟩ | ⟨k, r, _, he⟩
      · exact ⟨c, some e, he⟩
      · exact ⟨_, none, he⟩
    · rcases hfind with ⟨⟨k, r⟩, hp⟩ | hp <;> simp [Config.URL, hp]
    · rcases hfind with ⟨⟨k, r⟩, hp⟩ | hp <;> simp [Config.Verified, hp]

/-- C19, amended, at the state reached from the default document by
SetTarget("prod", "https://v.example/", false). -/
theorem Resolved_invariant_witness :
    Reachable storeFirst ∧
      storeFirst.Resolved ∧
      storeFirst.NoNil ∧
      (∃ r, storeFirst.Find storeFirst.Current = .ok r ∧ r.2.2 = none) ∧
      (storeFirst.Current ≠ "" →
        ∃ p, storeFirst.Find storeFirst.Current = .ok (some p, true, none)) ∧
      (∀ token, ∃ c' err, storeFirst.SetToken token = .ok (c', err)) ∧
      (∃ u, storeFirst.URL = .ok u) ∧
      (∃ b, storeFirst.Verified = .ok b) :=
  ⟨Reachable.setTarget _ _ _ _ Reachable.start,
    Resolved_invariant.2.2.2.2 storeFirst (Reachable.setTarget _ _ _ _ Reachable.start)⟩

end rc
